import Mathlib

/-!
Formal model of the TopdotWebs build pipeline
(topdotSite/tools/pipeline/sync_project_assets.py and
topdotSite/tools/pipeline/sheets_to_projects_json.py).

Python strings are modelled as lists of Unicode code points (`PStr`),
Python's stable `sorted` as an insertion sort over a boolean strict-order
comparator, and the Gallery/ directory as an association list from file
name to an abstract content token.  Fallible filesystem renames consume a
list of booleans (the outcome of each OS call in order; an exhausted list
means every remaining call succeeds), so theorems can quantify over every
pattern of per-file failure.
-/

/-- Python strings: lists of Unicode code points. -/
abbrev PStr := List Char

/-- Embed a Lean string literal as a Python string value. -/
def nm (s : String) : PStr := s.data

/-- Python string comparison a < b: lexicographic on code points. -/
def lexLt : PStr → PStr → Bool
| [], [] => false
| [], _ :: _ => true
| _ :: _, [] => false
| a :: as, b :: bs =>
    if a.toNat < b.toNat then true
    else if b.toNat < a.toNat then false
    else lexLt as bs

/-- Insertion step of a stable sort with strict comparator lt: x goes before
the first element not strictly below it, hence after every equal element
already placed (Python's `sorted` is stable). -/
def insertLt (lt : α → α → Bool) (x : α) : List α → List α
| [] => [x]
| y :: ys => if lt y x then y :: insertLt lt x ys else x :: y :: ys

/-- Stable sort with strict comparator lt: the model of Python's `sorted`. -/
def sortLt (lt : α → α → Bool) (l : List α) : List α :=
  List.foldr (insertLt lt) [] l

/-! ## Strings and file names (sync_project_assets.py helpers) -/

/-- ASCII lowercasing of one code point (Python str.lower restricted to ASCII,
which is all the pipeline's file names use). -/
def lowCh (c : Char) : Char :=
  if 65 ≤ c.toNat ∧ c.toNat ≤ 90 then Char.ofNat (c.toNat + 32) else c

/-- Python str.lower. -/
def lowStr (s : PStr) : PStr := s.map lowCh

/-- Python pathlib Path.suffix: name[i:] where i is the index of the last dot,
provided 0 < i < len(name) - 1; otherwise the empty string. -/
def path_suffix (n : PStr) : PStr :=
  let k := n.reverse.findIdx (fun c => c == '.')
  if k = n.length then []
  else
    let i := n.length - 1 - k
    if 0 < i ∧ i < n.length - 1 then n.drop i else []

/-- ALLOWED_EXTENSIONS of sync_project_assets.py. -/
def ALLOWED_EXTENSIONS : List PStr :=
  [nm (".jpg"), nm (".jpeg"), nm (".png"), nm (".gif"), nm (".webp")]

/-- is_image: suffix lowercased is an allowed image extension. -/
def is_image (n : PStr) : Bool := decide (lowStr (path_suffix n) ∈ ALLOWED_EXTENSIONS)

/-- One decimal digit as a character. -/
def digitChar : Nat → Char
| 0 => '0'
| 1 => '1'
| 2 => '2'
| 3 => '3'
| 4 => '4'
| 5 => '5'
| 6 => '6'
| 7 => '7'
| 8 => '8'
| 9 => '9'
| _ => '*'

/-- Decimal digits of n, most significant first (fuel-structured so that it
reduces definitionally; natDigits supplies enough fuel). -/
def natDigitsAux : Nat → Nat → List Char
| 0, _ => []
| fuel + 1, n =>
    if n < 10 then [digitChar n]
    else natDigitsAux fuel (n / 10) ++ [digitChar (n % 10)]

/-- Decimal rendering of a natural number. -/
def natDigits (n : Nat) : List Char := natDigitsAux (n + 1) n

/-- Python f-string {i:02d}: decimal digits zero-padded to width two. -/
def pad2 (i : Nat) : PStr := if i < 10 then '0' :: natDigits i else natDigits i

/-- new_name = f"{i:02d}{ext}" with ext = img.suffix.lower(). -/
def target_name (i : Nat) (n : PStr) : PStr := pad2 i ++ lowStr (path_suffix n)

/-- Index a list from a starting position (Python enumerate(ordered, start=1)). -/
def withIdxFrom : Nat → List α → List (Nat × α)
| _, [] => []
| i, x :: xs => (i, x) :: withIdxFrom (i + 1) xs

/-! ## The Gallery directory and the two-phase rename -/

/-- A directory: file name to abstract content token.  Every entry stands
for a regular file (the iterdir is_file check), in iterdir order. -/
abbrev FS := List (PStr × Nat)

/-- The names currently present in the directory. -/
def fsNames (fs : FS) : List PStr := fs.map Prod.fst

/-- Content stored under a name, if present. -/
def fsLookup (fs : FS) (n : PStr) : Option Nat :=
  (fs.find? (fun e => decide (e.1 = n))).map Prod.snd

/-- Remove a name from the directory. -/
def fsErase (fs : FS) (n : PStr) : FS := fs.filter (fun e => decide (e.1 ≠ n))

/-- POSIX Path.rename: fails (none, the Python call raises OSError) when the
source is absent; silently replaces an existing destination. -/
def fsRename (fs : FS) (old dst : PStr) : Option FS :=
  match fsLookup fs old with
  | none => none
  | some c => some (fsErase (fsErase fs old) dst ++ [(dst, c)])

/-- Outcome of the next OS call: an exhausted oracle means success. -/
def oHead : List Bool → Bool
| [] => true
| b :: _ => b

/-- The oracle after consuming one OS call. -/
def oTail : List Bool → List Bool
| [] => []
| _ :: r => r

/-- The staging prefix: temp = old.parent / f"_temp_{old.name}". -/
def tempPfx : PStr := nm ("_temp_")

/-- Python s.replace(pat, "", 1): drop the first occurrence of pat. -/
def pyReplace1 (pat : PStr) : PStr → PStr
| [] => []
| c :: rest =>
    if pat.isPrefixOf (c :: rest) then (c :: rest).drop pat.length
    else c :: pyReplace1 pat rest

/-- One attempted rename: the directory at that moment, source, destination. -/
abbrev Att := FS × PStr × PStr

structure StageOut where
  fs : FS
  temps : List (PStr × PStr)
  oracle : List Bool
  attempts : List Att
  staged : Nat
  failed : Nat

/-- First pass of sync_gallery: rename every planned source to its
_temp_-prefixed staging name, collecting (temp, target) pairs for the second
pass; a failed OS call leaves that file as-is and the loop continues. -/
def stageRun : FS → List Bool → List (PStr × PStr) → StageOut
| fs, orc, [] => ⟨fs, [], orc, [], 0, 0⟩
| fs, orc, (o, t) :: rest =>
    let temp := tempPfx ++ o
    let b := oHead orc
    let orc1 := oTail orc
    match (if b then fsRename fs o temp else none) with
    | some fs1 =>
        let out := stageRun fs1 orc1 rest
        ⟨out.fs, (temp, t) :: out.temps, out.oracle, (fs, o, temp) :: out.attempts,
          out.staged + 1, out.failed⟩
    | none =>
        let out := stageRun fs orc1 rest
        ⟨out.fs, out.temps, out.oracle, (fs, o, temp) :: out.attempts,
          out.staged, out.failed + 1⟩

structure FinOut where
  fs : FS
  oracle : List Bool
  attempts : List Att
  finalized : Nat
  failed : Nat

/-- Second pass: rename each staged temp to its true target; when that OS
call fails, best-effort revert the temp to temp.name.replace("_temp_", "", 1),
swallowing a revert failure. -/
def finalizeRun : FS → List Bool → List (PStr × PStr) → FinOut
| fs, orc, [] => ⟨fs, orc, [], 0, 0⟩
| fs, orc, (temp, t) :: rest =>
    let b := oHead orc
    let orc1 := oTail orc
    match (if b then fsRename fs temp t else none) with
    | some fs1 =>
        let out := finalizeRun fs1 orc1 rest
        ⟨out.fs, out.oracle, (fs, temp, t) :: out.attempts, out.finalized + 1, out.failed⟩
    | none =>
        let original := pyReplace1 tempPfx temp
        let b2 := oHead orc1
        let orc2 := oTail orc1
        let fs1 := match (if b2 then fsRename fs temp original else none) with
                   | some f => f
                   | none => fs
        let out := finalizeRun fs1 orc2 rest
        ⟨out.fs, out.oracle, (fs, temp, t) :: (fs, temp, original) :: out.attempts,
          out.finalized, out.failed + 1⟩

/-- sorted(images, key=lambda p: p.name.lower()). -/
def normalize_gallery_order (images : FS) : FS :=
  sortLt (fun a b => lexLt (lowStr a.1) (lowStr b.1)) images

/-- build_gallery_list_from_disk: relative paths of the image files actually
on disk, in canonical order (pre is the path prefix of the Gallery dir). -/
def build_gallery_list_from_disk (pre : PStr) (fs : FS) : List PStr :=
  (normalize_gallery_order (fs.filter (fun e => is_image e.1))).map (fun e => pre ++ e.1)

/-- The (current name, target name) pairs of the enumerate loop. -/
def galleryTargets (fs : FS) : List (PStr × PStr) :=
  (withIdxFrom 1 (normalize_gallery_order (fs.filter (fun e => is_image e.1)))).map
    (fun p => (p.2.1, target_name p.1 p.2.1))

structure SyncResult where
  fs : FS
  gallery : List PStr
  planned : List PStr
  renames : List (PStr × PStr)
  attempts : List Att

/-- sync_gallery(project_id, gallery_path, dry_run) on an existing Gallery
directory fs0, with orc deciding each OS call's outcome.  An empty image set
returns [] at once; in dry-run the planned list is returned untouched; with a
non-empty rename plan the two passes run and, in normal mode, the result is
always re-read from the final directory state. -/
def sync_gallery (pre : PStr) (fs0 : FS) (dryRun : Bool) (orc : List Bool) : SyncResult :=
  match fs0.filter (fun e => is_image e.1) with
  | [] => ⟨fs0, [], [], [], []⟩
  | _ :: _ =>
    let targets := galleryTargets fs0
    let planned := targets.map (fun p => pre ++ p.2)
    let renames := targets.filter (fun p => decide (p.1 ≠ p.2))
    if dryRun then ⟨fs0, planned, planned, renames, []⟩
    else
      match renames with
      | [] => ⟨fs0, build_gallery_list_from_disk pre fs0, planned, [], []⟩
      | r1 :: rs =>
          let st := stageRun fs0 orc (r1 :: rs)
          let fin := finalizeRun st.fs st.oracle st.temps
          ⟨fin.fs, build_gallery_list_from_disk pre fin.fs, planned, r1 :: rs,
            st.attempts ++ fin.attempts⟩

/-- A missing Gallery directory: sync_gallery warns and returns []. -/
def syncProjectGallery (pre : PStr) (dir : Option FS) (dryRun : Bool) (orc : List Bool) :
    Option FS × List PStr :=
  match dir with
  | none => (none, [])
  | some fs =>
      let r := sync_gallery pre fs dryRun orc
      (some r.fs, r.gallery)

/-- The image files actually present on disk, in canonical order. -/
def diskGalleryList (pre : PStr) : Option FS → List PStr
| none => []
| some fs => build_gallery_list_from_disk pre fs

/-- main's per-entity update: rewrite gallery[] in the detail record only
when the computed list differs from what was persisted. -/
def updateDetailGallery (existing computed : List PStr) (dryRun : Bool) : List PStr × Bool :=
  if dryRun = false ∧ computed ≠ existing then (computed, true) else (existing, false)

/-! ## Facts about target names (for C3) -/

/-- An ASCII decimal digit code point. -/
def isDigitCh (c : Char) : Bool := decide (48 ≤ c.toNat ∧ c.toNat ≤ 57)

/-- Value of a digit character. -/
def digitVal (c : Char) : Nat := c.toNat - 48

/-- Read a digit string back as a number. -/
def digitsToNat (l : List Char) : Nat := l.foldl (fun a c => 10 * a + digitVal c) 0

/-- Does some attempted rename target a name present in the directory at the
moment of the call?  (The source file itself never bears the destination
name: staging prepends _temp_, finalizing strips it for a numbered target.) -/
def hasCollision (atts : List Att) : Bool :=
  atts.any (fun a => a.1.any (fun e => decide (e.1 = a.2.2)))

/-! ## sheets_to_projects_json.py: strings, CSV rows and loaders -/

/-- Python str.strip()'s whitespace set (ASCII). -/
def isPySpace (c : Char) : Bool :=
  c == ' ' || c == '\t' || c == '\n' || c == '\r' || c == '\x0b' || c == '\x0c'

/-- Python str.strip(). -/
def pyStrip (s : PStr) : PStr :=
  ((s.dropWhile isPySpace).reverse.dropWhile isPySpace).reverse

deriving instance DecidableEq for Except

/-- One CSV row as csv.DictReader yields it: column name to cell, in header
order (a dict, so column names are unique per row). -/
abbrev Row := List (PStr × PStr)

/-- r.get(k): None when the column is absent. -/
def rowGet (r : Row) (k : PStr) : Option PStr :=
  (r.find? (fun e => decide (e.1 = k))).map Prod.snd

/-- r.get(k, ""). -/
def rowGetD (r : Row) (k : PStr) : PStr := (rowGet r k).getD []

/-- Python `a or b` for an optional string a (None and "" are falsy). -/
def truthyOr (a : Option PStr) (b : PStr) : PStr :=
  match a with
  | none => b
  | some v => if v = [] then b else v

/-- load_specs' shape detection: the stripped column names of the first row
contain both "key" and "value". -/
def isLongShape (rows : List Row) : Bool :=
  match rows with
  | [] => false
  | r :: _ =>
      decide (nm ("key") ∈ r.map (fun e => pyStrip e.1))
        && decide (nm ("value") ∈ r.map (fun e => pyStrip e.1))

/-- out.setdefault(pid, []).append(kv), with the dict of per-project spec
lists modelled as a function (main only ever reads all_specs.get(pid, [])). -/
def specsUpd (out : PStr → List (PStr × PStr)) (pid : PStr) (kv : PStr × PStr) :
    PStr → List (PStr × PStr) :=
  fun q => if q = pid then out q ++ [kv] else out q

/-- The empty specs table. -/
def specsEmpty : PStr → List (PStr × PStr) := fun _ => []

/-- One r.items() cell of the wide loop: skip falsy column names, the
identifier columns and blank cells, else record (stripped key, stripped
value) under the row's project id. -/
def wideCellStep (pid : PStr) (out : PStr → List (PStr × PStr)) (e : PStr × PStr) :
    PStr → List (PStr × PStr) :=
  if e.1 = [] then out
  else
    let key := pyStrip e.1
    if key = nm ("project_id") ∨ key = nm ("id") then out
    else
      let value := pyStrip e.2
      if value = [] then out
      else specsUpd out pid (key, value)

/-- One row of the wide loop: pid = (r.get("project_id") or r.get("id") or
"").strip(); rows with a blank id are skipped. -/
def wideRowStep (out : PStr → List (PStr × PStr)) (r : Row) : PStr → List (PStr × PStr) :=
  let pid := pyStrip (truthyOr (rowGet r (nm ("project_id")))
    (truthyOr (rowGet r (nm ("id"))) []))
  if pid = [] then out
  else r.foldl (wideCellStep pid) out

/-- Wide shape: one row per project, every non-identifier column is a spec
key; blank cells are skipped. -/
def loadSpecsWide (rows : List Row) : PStr → List (PStr × PStr) :=
  rows.foldl wideRowStep specsEmpty

/-- One row of the long loop: columns project_id, key, value; blank ids,
keys or values are skipped. -/
def longRowStep (out : PStr → List (PStr × PStr)) (r : Row) : PStr → List (PStr × PStr) :=
  let pid := pyStrip (rowGetD r (nm ("project_id")))
  if pid = [] then out
  else
    let key := pyStrip (rowGetD r (nm ("key")))
    let value := pyStrip (rowGetD r (nm ("value")))
    if key = [] ∨ value = [] then out
    else specsUpd out pid (key, value)

/-- Long shape. -/
def loadSpecsLong (rows : List Row) : PStr → List (PStr × PStr) :=
  rows.foldl longRowStep specsEmpty

/-- load_specs: empty file loads nothing, otherwise the shape detected from
the first row picks the parser. -/
def load_specs (rows : List Row) : PStr → List (PStr × PStr) :=
  match rows with
  | [] => specsEmpty
  | _ :: _ => if isLongShape rows then loadSpecsLong rows else loadSpecsWide rows

/-- A wide ProjectSpecs table: spec-key header and one (project id, cells)
row per project. -/
def wideTable (header : List PStr) (rows : List (PStr × List PStr)) : List Row :=
  rows.map (fun r => (nm ("project_id"), r.1) :: header.zip r.2)

/-- The same logical data in long form: one (project_id, key, value) row per
cell, in the wide table's encounter order. -/
def longTable (header : List PStr) (rows : List (PStr × List PStr)) : List Row :=
  (rows.map (fun r => (header.zip r.2).map
    (fun kv => [(nm ("project_id"), r.1), (nm ("key"), kv.1), (nm ("value"), kv.2)]))).flatten

structure SpecDef where
  key : PStr
  label : PStr
  emit : Bool
  show_on : List PStr
  order : Nat
  required : Bool
deriving DecidableEq

structure SpecOut where
  key : PStr
  label : PStr
  value : PStr
  showOn : List PStr
  order : Nat
deriving DecidableEq

/-- The join of build_specs_array before sorting: unknown keys and
emit=false keys are dropped; the five output fields come from the value and
its definition. -/
def emittedSpecs (ps : List (PStr × PStr)) (defs : PStr → Option SpecDef) : List SpecOut :=
  ps.filterMap (fun kv =>
    match defs kv.1 with
    | none => none
    | some d => if d.emit then some ⟨kv.1, d.label, kv.2, d.show_on, d.order⟩ else none)

/-- build_specs_array: join then specs.sort(key=lambda s: s["order"])
(Python's stable sort). -/
def build_specs_array (ps : List (PStr × PStr)) (defs : PStr → Option SpecDef) : List SpecOut :=
  sortLt (fun a b => decide (a.order < b.order)) (emittedSpecs ps defs)

/-- should_publish: status.lower() in {"published", "coming-soon"}. -/
def should_publish (status : PStr) : Bool :=
  decide (lowStr status ∈ [nm ("published"), nm ("coming-soon")])

/-- \w of the slug regexes, for the ASCII names this pipeline slugs. -/
def isWordCh (c : Char) : Bool :=
  decide (48 ≤ c.toNat ∧ c.toNat ≤ 57) || decide (65 ≤ c.toNat ∧ c.toNat ≤ 90)
    || decide (97 ≤ c.toNat ∧ c.toNat ≤ 122) || c == '_'

/-- re.sub(p+, rep, s): replace every maximal run of p-characters by one rep
(fuel-structured on the remaining length). -/
def subPlusAux (p : Char → Bool) (rep : Char) : Nat → List Char → List Char
| 0, _ => []
| _ + 1, [] => []
| fuel + 1, c :: rest =>
    if p c then rep :: subPlusAux p rep fuel (rest.dropWhile p)
    else c :: subPlusAux p rep fuel rest

/-- slugify: lowercase, strip, drop chars outside [\w\s-], collapse
whitespace runs to "-", collapse "-" runs. -/
def slugify (s : PStr) : PStr :=
  let s1 := pyStrip (lowStr s)
  let s2 := s1.filter (fun c => isWordCh c || isPySpace c || c == '-')
  let s3 := subPlusAux isPySpace '-' s2.length s2
  subPlusAux (fun c => c == '-') '-' s3.length s3

structure Project where
  id : PStr
  name : PStr
  type : PStr
  tags : List PStr
  status : PStr
  year : Option Nat
  location : PStr
  image_dir : PStr
  featured_ext : PStr
  sort_priority : Option Nat
deriving DecidableEq

structure ListingEntry where
  id : PStr
  name : PStr
  slug : PStr
  year : Option Nat
  tags : List PStr
  thumbnail : PStr
  status : PStr
  href : PStr
  detailJson : PStr
deriving DecidableEq

/-- build_listing_entry. -/
def build_listing_entry (p : Project) : ListingEntry :=
  { id := p.id, name := p.name, slug := slugify p.name, year := p.year, tags := p.tags,
    thumbnail := p.image_dir ++ nm ("Featured.") ++ p.featured_ext,
    status := p.status,
    href := nm ("project.html?id=") ++ p.id,
    detailJson := nm ("data/projects/") ++ p.id ++ nm (".json") }

structure DetailRecord where
  id : PStr
  name : PStr
  slug : PStr
  year : Option Nat
  tags : List PStr
  status : PStr
  location : PStr
  featuredImage : PStr
  description : List PStr
  gallery : List PStr
  specs : List SpecOut
deriving DecidableEq

/-- build_detail_json. -/
def build_detail_json (p : Project) (descriptions : List PStr) (specs_arr : List SpecOut)
    (existing_gallery : List PStr) : DetailRecord :=
  { id := p.id, name := p.name, slug := slugify p.name, year := p.year, tags := p.tags,
    status := p.status, location := p.location,
    featuredImage := p.image_dir ++ nm ("Featured.") ++ p.featured_ext,
    description := descriptions, gallery := existing_gallery, specs := specs_arr }

/-- main's listing: one entry per project passing the publish gate. -/
def mainListing (projects : List Project) : List ListingEntry :=
  (projects.filter (fun p => should_publish p.status)).map build_listing_entry

/-- main's detail files: (id, record) per published project. -/
def mainDetails (projects : List Project)
    (descMap : PStr → List PStr) (specsMap : PStr → List (PStr × PStr))
    (defs : PStr → Option SpecDef) (existingGallery : PStr → List PStr) :
    List (PStr × DetailRecord) :=
  (projects.filter (fun p => should_publish p.status)).map
    (fun p => (p.id, build_detail_json p (descMap p.id)
      (build_specs_array (specsMap p.id) defs) (existingGallery p.id)))

/-- load_projects' status rule: the stripped cell, "draft" when empty. -/
def loadStatusField (raw : PStr) : PStr :=
  if pyStrip raw = [] then nm ("draft") else pyStrip raw

/-! ## Integer parsing (load_projects / load_spec_defs / load_descriptions) -/

/-- An ASCII decimal digit: category Nd, accepted by int(). -/
def isDecDigit (c : Char) : Bool := decide (48 ≤ c.toNat ∧ c.toNat ≤ 57)

/-- Python str.isdigit() on one code point, restricted to the code points
this development uses: the ASCII digits, plus the compatibility superscripts
U+00B9 U+00B2 U+00B3 which satisfy isdigit() but are rejected by int() with
a ValueError (documented CPython behaviour). -/
def isPyDigitCh (c : Char) : Bool :=
  isDecDigit c || c == '¹' || c == '²' || c == '³'

/-- Python s.isdigit(): non-empty and all digit characters. -/
def pyIsDigit (s : PStr) : Bool := decide (s ≠ []) && s.all isPyDigitCh

/-- Decimal value of an all-decimal string. -/
def decValue (s : PStr) : Nat := s.foldl (fun a c => 10 * a + digitVal c) 0

/-- `int(s) if s.isdigit() else None`: error () models the uncaught
ValueError raised when isdigit() admits a character int() rejects. -/
def parseIntOpt (s : PStr) : Except Unit (Option Nat) :=
  if pyIsDigit s then
    (if s.all isDecDigit then Except.ok (some (decValue s)) else Except.error ())
  else Except.ok none

/-- load_projects line 119: year = int(year_str) if year_str.isdigit() else None. -/
def loadYearField (year_str : PStr) : Except Unit (Option Nat) := parseIntOpt year_str

/-- order = int(order_str) if order_str.isdigit() else 0 (load_spec_defs
line 155, load_descriptions line 177). -/
def parseOrderField (order_str : PStr) : Except Unit Nat :=
  match parseIntOpt order_str with
  | Except.error e => Except.error e
  | Except.ok none => Except.ok 0
  | Except.ok (some v) => Except.ok v

/-- The spec's pattern [0-9]+. -/
def matchesDigits (s : PStr) : Bool := decide (s ≠ []) && s.all isDecDigit

/-! ## load_descriptions -/

/-- The load_descriptions row loop: rows with blank project_id are skipped
before the order cell is parsed (which can raise); rows with empty text are
dropped; kept rows yield (pid, order, text) in row order. -/
def descEntries : List Row → Except Unit (List (PStr × Nat × PStr))
| [] => Except.ok []
| r :: rest =>
    let pid := pyStrip (rowGetD r (nm ("project_id")))
    if pid = [] then descEntries rest
    else
      match parseOrderField (pyStrip (rowGetD r (nm ("order")))) with
      | Except.error e => Except.error e
      | Except.ok order =>
          let text := pyStrip (rowGetD r (nm ("text")))
          match descEntries rest with
          | Except.error e => Except.error e
          | Except.ok es => Except.ok (if text = [] then es else (pid, order, text) :: es)

/-- The same loop on inputs where no order cell raises. -/
def descEntriesOk : List Row → List (PStr × Nat × PStr)
| [] => []
| r :: rest =>
    let pid := pyStrip (rowGetD r (nm ("project_id")))
    if pid = [] then descEntriesOk rest
    else
      let order := match parseIntOpt (pyStrip (rowGetD r (nm ("order")))) with
                   | Except.ok (some v) => v
                   | _ => 0
      let text := pyStrip (rowGetD r (nm ("text")))
      if text = [] then descEntriesOk rest else (pid, order, text) :: descEntriesOk rest

/-- Per-project (order, text) pairs in row order (out.setdefault append). -/
def descFor (es : List (PStr × Nat × PStr)) (pid : PStr) : List (Nat × PStr) :=
  es.filterMap (fun e => if e.1 = pid then some e.2 else none)

/-- Python tuple comparison on (order, text): order first, then the text
lexicographically. -/
def tupLt (a b : Nat × PStr) : Bool :=
  decide (a.1 < b.1) || (decide (a.1 = b.1) && lexLt a.2 b.2)

/-- sorted(items) then keep the texts: load_descriptions' value for one
project. -/
def load_descriptions_for (es : List (PStr × Nat × PStr)) (pid : PStr) : List PStr :=
  (sortLt tupLt (descFor es pid)).map Prod.snd

/-! ## generate_change_report -/

/-- "\n".join(lines). -/
def joinNl : List PStr → PStr
| [] => []
| [x] => x
| x :: y :: rest => x ++ '\n' :: joinNl (y :: rest)

/-- sorted(ids). -/
def sortedIds (l : List PStr) : List PStr := sortLt lexLt l

/-- generate_change_report on the two manifests' projects maps (modelled as
association lists with the unique keys a JSON object has). -/
def generate_change_report (old_projects new_projects : List (PStr × PStr)) : PStr :=
  let old_keys := old_projects.map Prod.fst
  let new_keys := new_projects.map Prod.fst
  let added := new_keys.filter (fun k => decide (k ∉ old_keys))
  let removed := old_keys.filter (fun k => decide (k ∉ new_keys))
  let changed := new_keys.filter (fun k => decide (k ∈ old_keys)
    && decide (rowGet new_projects k ≠ rowGet old_projects k))
  let lines : List PStr :=
    [nm ("=== Build Change Report ===\n")]
      ++ (if added ≠ [] then
            (nm ("Added: ") ++ natDigits added.length)
              :: (sortedIds added).map (fun pid => nm ("  + ") ++ pid) ++ [[]]
          else [])
      ++ (if removed ≠ [] then
            (nm ("Removed: ") ++ natDigits removed.length)
              :: (sortedIds removed).map (fun pid => nm ("  - ") ++ pid) ++ [[]]
          else [])
      ++ (if changed ≠ [] then
            (nm ("Changed: ") ++ natDigits changed.length)
              :: (sortedIds changed).map (fun pid => nm ("  ~ ") ++ pid) ++ [[]]
          else [])
      ++ (if added = [] ∧ removed = [] ∧ changed = [] then
            [nm ("No changes detected.\n")]
          else [])
  joinNl lines

/-- The classification every project id receives from the two manifests. -/
inductive ChangeClass
| added
| removed
| changed
| unchanged
deriving DecidableEq

/-- added: new only; removed: old only; changed: both with differing hashes;
unchanged: both with equal hashes. -/
def classifyId (old_projects new_projects : List (PStr × PStr)) (pid : PStr) : ChangeClass :=
  if pid ∈ new_projects.map Prod.fst then
    (if pid ∈ old_projects.map Prod.fst then
      (if rowGet new_projects pid ≠ rowGet old_projects pid then ChangeClass.changed
       else ChangeClass.unchanged)
     else ChangeClass.added)
  else ChangeClass.removed

theorem lexLt_asymm : ∀ a b : PStr, lexLt a b = true → lexLt b a = false := by
  intro a
  induction a with
  | nil => intro b _; cases b <;> simp [lexLt]
  | cons c cs ih =>
      intro b h
      cases b with
      | nil => simp [lexLt] at h
      | cons d ds =>
          simp only [lexLt] at h ⊢
          by_cases h1 : c.toNat < d.toNat
          · have h2 : ¬ d.toNat < c.toNat := by omega
            simp [h1, h2]
          · by_cases h2 : d.toNat < c.toNat
            · simp [h1, h2] at h
            · simp [h1, h2] at h ⊢
              exact ih ds h

theorem lexLt_neg_trans :
    ∀ a b c : PStr, lexLt a b = false → lexLt b c = false → lexLt a c = false := by
  intro a
  induction a with
  | nil =>
      intro b c hab hbc
      cases b with
      | nil => exact hbc
      | cons d ds => simp [lexLt] at hab
  | cons x xs ih =>
      intro b c hab hbc
      cases b with
      | nil =>
          cases c with
          | nil => simp [lexLt]
          | cons z zs => simp [lexLt] at hbc
      | cons y ys =>
          cases c with
          | nil => simp [lexLt]
          | cons z zs =>
              simp only [lexLt] at hab hbc ⊢
              have h1 : ¬ x.toNat < y.toNat := by
                intro h; simp [h] at hab
              have h2 : ¬ y.toNat < z.toNat := by
                intro h; simp [h] at hbc
              have h3 : ¬ x.toNat < z.toNat := by omega
              by_cases h4 : z.toNat < x.toNat
              · simp [h3, h4]
              · have h5 : ¬ z.toNat < y.toNat := by omega
                have h6 : ¬ y.toNat < x.toNat := by omega
                simp only [h1, h6, if_false, ite_false, if_neg] at hab
                simp only [h2, h5, if_false, ite_false, if_neg] at hbc
                simp only [h3, h4, if_false, ite_false, if_neg]
                exact ih ys zs hab hbc

theorem insertLt_perm (lt : α → α → Bool) (x : α) :
    ∀ m : List α, (insertLt lt x m).Perm (x :: m) := by
  intro m
  induction m with
  | nil => simp [insertLt]
  | cons y ys ih =>
      simp only [insertLt]
      by_cases h : lt y x = true
      · simp [h]
        exact ((ih.cons y).trans (List.Perm.swap x y ys))
      · simp [h]

theorem sortLt_perm (lt : α → α → Bool) :
    ∀ l : List α, (sortLt lt l).Perm l := by
  intro l
  induction l with
  | nil => simp [sortLt]
  | cons x xs ih =>
      simp only [sortLt, List.foldr] at ih ⊢
      exact (insertLt_perm lt x _).trans (ih.cons x)

theorem insertLt_pairwise (lt : α → α → Bool)
    (hasym : ∀ a b, lt a b = true → lt b a = false)
    (htr : ∀ a b c, lt a b = false → lt b c = false → lt a c = false)
    (x : α) :
    ∀ m : List α, m.Pairwise (fun a b => lt b a = false) →
      (insertLt lt x m).Pairwise (fun a b => lt b a = false) := by
  intro m
  induction m with
  | nil => intro _; simp [insertLt]
  | cons y ys ih =>
      intro hm
      rw [List.pairwise_cons] at hm
      obtain ⟨hy, hys⟩ := hm
      by_cases h : lt y x = true
      · rw [insertLt, if_pos h, List.pairwise_cons]
        refine ⟨?_, ih hys⟩
        intro z hz
        have hz' : z = x ∨ z ∈ ys := by
          have := (insertLt_perm lt x ys).mem_iff.mp hz
          simpa using this
        cases hz' with
        | inl he => subst he; exact hasym y z h
        | inr hmem => exact hy z hmem
      · have hf : lt y x = false := by simpa using h
        rw [insertLt, if_neg h, List.pairwise_cons]
        refine ⟨?_, List.pairwise_cons.mpr ⟨hy, hys⟩⟩
        intro z hz
        rcases List.mem_cons.mp hz with he | hmem
        · subst he; exact hf
        · exact htr z y x (hy z hmem) hf

theorem sortLt_pairwise (lt : α → α → Bool)
    (hasym : ∀ a b, lt a b = true → lt b a = false)
    (htr : ∀ a b c, lt a b = false → lt b c = false → lt a c = false) :
    ∀ l : List α, (sortLt lt l).Pairwise (fun a b => lt b a = false) := by
  intro l
  induction l with
  | nil => simp [sortLt]
  | cons x xs ih =>
      simp only [sortLt, List.foldr] at ih ⊢
      exact insertLt_pairwise lt hasym htr x _ ih

theorem insertLt_filter (lt : α → α → Bool) (p : α → Bool) (x : α)
    (hp : ∀ y, p y = true → p x = true → lt y x = false) :
    ∀ m : List α, (insertLt lt x m).filter p = (x :: m).filter p := by
  intro m
  induction m with
  | nil => simp [insertLt]
  | cons y ys ih =>
      by_cases h : lt y x = true
      · rw [insertLt, if_pos h, List.filter_cons, ih]
        by_cases hx : p x = true
        · have hyf : p y = false := by
            by_cases hyp : p y = true
            · exact absurd (hp y hyp hx) (by simp [h])
            · simpa using hyp
          simp [List.filter_cons, hyf, hx]
        · have hx' : p x = false := by simpa using hx
          simp [List.filter_cons, hx']
      · rw [insertLt, if_neg h]

theorem sortLt_filter (lt : α → α → Bool) (p : α → Bool)
    (hp : ∀ a b, p a = true → p b = true → lt a b = false) :
    ∀ l : List α, (sortLt lt l).filter p = l.filter p := by
  intro l
  induction l with
  | nil => simp [sortLt]
  | cons x xs ih =>
      show (insertLt lt x (sortLt lt xs)).filter p = (x :: xs).filter p
      rw [insertLt_filter lt p x (fun y hy hx => hp y x hy hx)]
      simp [List.filter_cons, ih]

/-! ## Claims about the asset synchronizer (C1, C2, C4) -/

theorem build_gallery_empty (pre : PStr) (fs : FS)
    (h : fs.filter (fun e => is_image e.1) = []) :
    build_gallery_list_from_disk pre fs = [] := by
  unfold build_gallery_list_from_disk normalize_gallery_order
  rw [h]
  rfl

theorem updateDetailGallery_self (existing : List PStr) (d : Bool) :
    updateDetailGallery existing existing d = (existing, false) := by
  unfold updateDetailGallery
  simp

theorem updateDetailGallery_fst (existing computed : List PStr) :
    (updateDetailGallery existing computed false).1 = computed := by
  unfold updateDetailGallery
  by_cases h : computed = existing
  · simp [h]
  · simp [h]

theorem sync_gallery_returns_disk (pre : PStr) (fs0 : FS) (orc : List Bool) :
    (sync_gallery pre fs0 false orc).gallery
      = build_gallery_list_from_disk pre (sync_gallery pre fs0 false orc).fs := by
  unfold sync_gallery
  cases hi : fs0.filter (fun e => is_image e.1) with
  | nil =>
      have hb : build_gallery_list_from_disk pre fs0 = [] := build_gallery_empty pre fs0 hi
      simp [hb]
  | cons a l =>
      dsimp only
      cases hr : (galleryTargets fs0).filter (fun p => decide (p.1 ≠ p.2)) with
      | nil => rfl
      | cons r1 rs => rfl

/-- C1: in a normal (non-dry-run) run, for every Gallery directory state and
every pattern of per-rename success or failure, the gallery list persisted to
the detail record is exactly the canonical list of image files actually
present in the directory after all rename attempts, never the pre-computed
plan. -/
theorem sync_persists_actual_disk_state (pre : PStr) (dir : Option FS) (orc : List Bool)
    (existing : List PStr) :
    (updateDetailGallery existing (syncProjectGallery pre dir false orc).2 false).1
      = diskGalleryList pre (syncProjectGallery pre dir false orc).1 := by
  cases dir with
  | none => simp [syncProjectGallery, diskGalleryList, updateDetailGallery_fst]
  | some fs =>
      simp only [syncProjectGallery, diskGalleryList]
      rw [updateDetailGallery_fst]
      exact sync_gallery_returns_disk pre fs orc

/-- C2 counterexample: with Gallery = {A.jpg, 01.jpg} (contents tagged 0 and 1
respectively) and every rename succeeding, 01.jpg does NOT end up holding
original A.jpg's content (token 0), and 02.jpg does NOT end up holding
original 01.jpg's content (token 1) — "01" sorts before "a"
case-insensitively, so the claimed swap never happens. -/
theorem gallery_swap_counterexample :
    fsLookup (sync_gallery [] [(nm ("A.jpg"), 0), (nm ("01.jpg"), 1)] false []).fs
        (nm ("01.jpg")) ≠ some 0
      ∧ fsLookup (sync_gallery [] [(nm ("A.jpg"), 0), (nm ("01.jpg"), 1)] false []).fs
        (nm ("02.jpg")) ≠ some 1 := by decide

/-- C2 amended: with Gallery = {A.jpg, 01.jpg} and every rename succeeding,
the directory afterwards holds exactly 01.jpg with original 01.jpg's content
(it is already in target position, since "01.jpg" sorts before "a.jpg") and
02.jpg with original A.jpg's content; no temp-named file remains and no
content is lost, and the returned gallery list is [01.jpg, 02.jpg]. -/
theorem gallery_swap_amended :
    (sync_gallery [] [(nm ("A.jpg"), 0), (nm ("01.jpg"), 1)] false []).fs
        = [(nm ("01.jpg"), 1), (nm ("02.jpg"), 0)]
      ∧ (sync_gallery [] [(nm ("A.jpg"), 0), (nm ("01.jpg"), 1)] false []).gallery
        = [nm ("01.jpg"), nm ("02.jpg")] := by decide

/-- C4: when every gallery file already bears its canonical target name and
the persisted gallery equals the disk-derived list, a non-dry-run pass plans
zero renames, performs zero rename attempts, leaves the directory untouched
and does not rewrite the detail JSON. -/
theorem sync_gallery_idempotent (pre : PStr) (fs0 : FS) (orc : List Bool)
    (existing : List PStr)
    (hcanon : ∀ p ∈ galleryTargets fs0, p.1 = p.2)
    (hpersisted : existing = build_gallery_list_from_disk pre fs0) :
    (sync_gallery pre fs0 false orc).renames = []
      ∧ (sync_gallery pre fs0 false orc).fs = fs0
      ∧ (sync_gallery pre fs0 false orc).attempts = []
      ∧ updateDetailGallery existing (sync_gallery pre fs0 false orc).gallery false
        = (existing, false) := by
  have hren : (galleryTargets fs0).filter (fun p => decide (p.1 ≠ p.2)) = [] := by
    rw [List.filter_eq_nil_iff]
    intro p hp
    simp [hcanon p hp]
  unfold sync_gallery
  cases hi : fs0.filter (fun e => is_image e.1) with
  | nil =>
      have hb : build_gallery_list_from_disk pre fs0 = [] := build_gallery_empty pre fs0 hi
      have he : existing = [] := by rw [hpersisted, hb]
      subst he
      exact ⟨rfl, rfl, rfl, updateDetailGallery_self [] false⟩
  | cons a l =>
      dsimp only
      rw [hren]
      subst hpersisted
      exact ⟨rfl, rfl, rfl, updateDetailGallery_self _ false⟩

/-- Witness for C4 at the concrete directory {01.jpg, 02.png} with persisted
gallery equal to the disk list. -/
theorem sync_gallery_idempotent_witness :
    (sync_gallery (nm ("g/")) [(nm ("01.jpg"), 0), (nm ("02.png"), 1)] false []).renames = []
      ∧ (sync_gallery (nm ("g/")) [(nm ("01.jpg"), 0), (nm ("02.png"), 1)] false []).fs
        = [(nm ("01.jpg"), 0), (nm ("02.png"), 1)]
      ∧ (sync_gallery (nm ("g/")) [(nm ("01.jpg"), 0), (nm ("02.png"), 1)] false []).attempts = []
      ∧ updateDetailGallery [nm ("g/01.jpg"), nm ("g/02.png")]
          (sync_gallery (nm ("g/")) [(nm ("01.jpg"), 0), (nm ("02.png"), 1)] false []).gallery
          false
        = ([nm ("g/01.jpg"), nm ("g/02.png")], false) :=
  sync_gallery_idempotent (nm ("g/")) [(nm ("01.jpg"), 0), (nm ("02.png"), 1)] []
    [nm ("g/01.jpg"), nm ("g/02.png")] (by decide) (by decide)

theorem digitChar_digit (d : Nat) (h : d < 10) : isDigitCh (digitChar d) = true := by
  interval_cases d <;> decide

theorem natDigitsAux_digits (fuel : Nat) :
    ∀ n, n < fuel →
      natDigitsAux fuel n ≠ [] ∧ ∀ c ∈ natDigitsAux fuel n, isDigitCh c = true := by
  induction fuel with
  | zero => intro n h; omega
  | succ f ih =>
      intro n h
      by_cases h10 : n < 10
      · simp only [natDigitsAux, if_pos h10]
        refine ⟨by simp, ?_⟩
        intro c hc
        simp only [List.mem_singleton] at hc
        subst hc
        exact digitChar_digit n h10
      · simp only [natDigitsAux, if_neg h10]
        have hdiv : n / 10 < f := by omega
        obtain ⟨hne, hall⟩ := ih (n / 10) hdiv
        constructor
        · simp
        · intro c hc
          rcases List.mem_append.mp hc with hl | hr
          · exact hall c hl
          · simp only [List.mem_singleton] at hr
            subst hr
            exact digitChar_digit (n % 10) (Nat.mod_lt n (by omega))

theorem pad2_digits (i : Nat) : pad2 i ≠ [] ∧ ∀ c ∈ pad2 i, isDigitCh c = true := by
  obtain ⟨hne, hall⟩ := natDigitsAux_digits (i + 1) i (by omega)
  unfold pad2 natDigits
  by_cases h : i < 10
  · simp only [if_pos h]
    refine ⟨by simp, ?_⟩
    intro c hc
    rcases List.mem_cons.mp hc with he | hm
    · subst he; decide
    · exact hall c hm
  · simp only [if_neg h]
    exact ⟨hne, hall⟩

theorem digitVal_digitChar (d : Nat) (h : d < 10) : digitVal (digitChar d) = d := by
  interval_cases d <;> decide

theorem natDigitsAux_foldl (fuel : Nat) :
    ∀ n, n < fuel → ∀ a,
      List.foldl (fun a c => 10 * a + digitVal c) a (natDigitsAux fuel n)
        = a * 10 ^ (natDigitsAux fuel n).length + n := by
  induction fuel with
  | zero => intro n h; omega
  | succ f ih =>
      intro n h a
      by_cases h10 : n < 10
      · simp only [natDigitsAux, if_pos h10]
        simp [List.foldl, digitVal_digitChar n h10]
        omega
      · simp only [natDigitsAux, if_neg h10]
        have hdiv : n / 10 < f := by omega
        rw [List.foldl_append, ih (n / 10) hdiv a]
        simp only [List.foldl]
        rw [List.length_append]
        simp only [List.length_singleton]
        rw [digitVal_digitChar (n % 10) (Nat.mod_lt n (by omega))]
        have hpow : 10 ^ ((natDigitsAux f (n / 10)).length + 1)
            = 10 ^ (natDigitsAux f (n / 10)).length * 10 := by
          rw [pow_succ]
        rw [hpow]
        have hmod : 10 * (n / 10) + n % 10 = n := Nat.div_add_mod n 10
        have hL : 0 < 10 ^ (natDigitsAux f (n / 10)).length := Nat.pos_pow_of_pos _ (by omega)
        generalize 10 ^ (natDigitsAux f (n / 10)).length = L at *
        ring_nf
        omega

theorem digitsToNat_pad2 (i : Nat) : digitsToNat (pad2 i) = i := by
  have hfold := natDigitsAux_foldl (i + 1) i (by omega)
  unfold digitsToNat pad2 natDigits
  by_cases h : i < 10
  · simp only [if_pos h, List.foldl]
    have : digitVal '0' = 0 := by decide
    rw [this]
    have := hfold 0
    simpa using hfold 0
  · simp only [if_neg h]
    simpa using hfold 0

theorem pad2_inj (i j : Nat) (h : pad2 i = pad2 j) : i = j := by
  have h1 := digitsToNat_pad2 i
  rw [h, digitsToNat_pad2 j] at h1
  omega

theorem append_dot_eq (xs : List Char) :
    ∀ xs' ys ys' : List Char,
      (∀ c ∈ xs, isDigitCh c = true) → (∀ c ∈ xs', isDigitCh c = true) →
      (∃ t, ys = '.' :: t) → (∃ t, ys' = '.' :: t) →
      xs ++ ys = xs' ++ ys' → xs = xs' := by
  induction xs with
  | nil =>
      intro xs' ys ys' _ hx' hy hy' h
      cases xs' with
      | nil => rfl
      | cons c cs =>
          obtain ⟨t, ht⟩ := hy
          subst ht
          simp only [List.nil_append, List.cons_append] at h
          have hc : c = '.' := by
            have := h.symm
            exact (List.cons.injEq _ _ _ _ ▸ this).1
          have := hx' c (by simp)
          rw [hc] at this
          exact absurd this (by decide)
  | cons c cs ih =>
      intro xs' ys ys' hx hx' hy hy' h
      cases xs' with
      | nil =>
          obtain ⟨t, ht⟩ := hy'
          subst ht
          simp only [List.cons_append, List.nil_append] at h
          have hc : c = '.' := (List.cons.injEq _ _ _ _ ▸ h).1
          have := hx c (by simp)
          rw [hc] at this
          exact absurd this (by decide)
      | cons c' cs' =>
          simp only [List.cons_append] at h
          have h1 : c = c' := (List.cons.injEq _ _ _ _ ▸ h).1
          have h2 : cs ++ ys = cs' ++ ys' := (List.cons.injEq _ _ _ _ ▸ h).2
          rw [h1, ih cs' ys ys' (fun d hd => hx d (by simp [hd]))
            (fun d hd => hx' d (by simp [hd])) hy hy' h2]

theorem findIdx_no_dot (l1 l2 : List Char) (h : ∀ c ∈ l1, (c == '.') = false) :
    List.findIdx (fun c => c == '.') (l1 ++ '.' :: l2) = l1.length := by
  induction l1 with
  | nil => simp [List.findIdx_cons]
  | cons c cs ih =>
      have hc := h c (by simp)
      simp only [List.cons_append, List.findIdx_cons, hc, cond_false, List.length_cons]
      rw [ih (fun d hd => h d (by simp [hd]))]

theorem path_suffix_append_ext (xs t : List Char)
    (_hxs : ∀ c ∈ xs, isDigitCh c = true) (hne : xs ≠ [])
    (ht : ∀ c ∈ t, (c == '.') = false) (htne : t ≠ []) :
    path_suffix (xs ++ '.' :: t) = '.' :: t := by
  have hrev : (xs ++ '.' :: t).reverse = t.reverse ++ '.' :: xs.reverse := by
    rw [List.reverse_append, List.reverse_cons]
    simp [List.append_assoc]
  have hfind : List.findIdx (fun c => c == '.') ((xs ++ '.' :: t).reverse) = t.length := by
    rw [hrev]
    have := findIdx_no_dot t.reverse xs.reverse (fun c hc => ht c (List.mem_reverse.mp hc))
    simpa using this
  have hxs0 : 0 < xs.length := List.length_pos.mpr hne
  have ht0 : 0 < t.length := List.length_pos.mpr htne
  simp only [path_suffix, hfind]
  rw [if_neg (by simp [List.length_append]; omega)]
  rw [if_pos (by constructor <;> (simp [List.length_append]; omega))]
  have hi : (xs ++ '.' :: t).length - 1 - t.length = xs.length := by
    simp [List.length_append]
  rw [hi, List.drop_left]

theorem is_image_pad_ext (xs : List Char) (e : PStr)
    (hxs : ∀ c ∈ xs, isDigitCh c = true) (hne : xs ≠ [])
    (he : e ∈ ALLOWED_EXTENSIONS) :
    path_suffix (xs ++ e) = e ∧ is_image (xs ++ e) = true := by
  have hsplit : ∃ t : List Char, e = '.' :: t ∧ (∀ c ∈ t, (c == '.') = false) ∧ t ≠ []
      ∧ lowStr ('.' :: t) ∈ ALLOWED_EXTENSIONS := by
    simp only [ALLOWED_EXTENSIONS, List.mem_cons, List.not_mem_nil, or_false] at he
    rcases he with rfl | rfl | rfl | rfl | rfl
    · exact ⟨nm ("jpg"), rfl, by decide, by decide, by decide⟩
    · exact ⟨nm ("jpeg"), rfl, by decide, by decide, by decide⟩
    · exact ⟨nm ("png"), rfl, by decide, by decide, by decide⟩
    · exact ⟨nm ("gif"), rfl, by decide, by decide, by decide⟩
    · exact ⟨nm ("webp"), rfl, by decide, by decide, by decide⟩
  obtain ⟨t, rfl, ht, htne, hlow⟩ := hsplit
  have hp := path_suffix_append_ext xs t hxs hne ht htne
  refine ⟨hp, ?_⟩
  unfold is_image
  rw [hp]
  exact decide_eq_true hlow

theorem target_head (i : Nat) (n : PStr) :
    ∃ c cs, target_name i n = c :: cs ∧ isDigitCh c = true := by
  obtain ⟨hne, hall⟩ := pad2_digits i
  cases hc : pad2 i with
  | nil => exact absurd hc hne
  | cons c cs =>
      refine ⟨c, cs ++ lowStr (path_suffix n), ?_, ?_⟩
      · unfold target_name
        rw [hc]
        rfl
      · exact hall c (by rw [hc]; simp)

theorem temp_ne_target (o : PStr) (i : Nat) (n : PStr) :
    tempPfx ++ o ≠ target_name i n := by
  intro h
  obtain ⟨c, cs, ht, hd⟩ := target_head i n
  have hh : tempPfx ++ o = '_' :: (nm ("temp_") ++ o) := rfl
  rw [hh, ht] at h
  have hc : '_' = c := (List.cons.injEq _ _ _ _ ▸ h).1
  rw [← hc] at hd
  exact absurd hd (by decide)

theorem is_image_target (i : Nat) (n : PStr) (h : is_image n = true) :
    is_image (target_name i n) = true := by
  have hmem : lowStr (path_suffix n) ∈ ALLOWED_EXTENSIONS := of_decide_eq_true h
  obtain ⟨hne, hall⟩ := pad2_digits i
  exact (is_image_pad_ext (pad2 i) (lowStr (path_suffix n)) hall hne hmem).2

theorem target_name_inj (i j : Nat) (a b : PStr)
    (ha : is_image a = true) (hb : is_image b = true)
    (h : target_name i a = target_name j b) : i = j := by
  have hma : lowStr (path_suffix a) ∈ ALLOWED_EXTENSIONS := of_decide_eq_true ha
  have hmb : lowStr (path_suffix b) ∈ ALLOWED_EXTENSIONS := of_decide_eq_true hb
  have hda : ∃ t, lowStr (path_suffix a) = '.' :: t := by
    simp only [ALLOWED_EXTENSIONS, List.mem_cons, List.not_mem_nil, or_false] at hma
    rcases hma with he | he | he | he | he <;> exact ⟨_, by rw [he]; rfl⟩
  have hdb : ∃ t, lowStr (path_suffix b) = '.' :: t := by
    simp only [ALLOWED_EXTENSIONS, List.mem_cons, List.not_mem_nil, or_false] at hmb
    rcases hmb with he | he | he | he | he <;> exact ⟨_, by rw [he]; rfl⟩
  have hpp : pad2 i = pad2 j :=
    append_dot_eq (pad2 i) (pad2 j) (lowStr (path_suffix a)) (lowStr (path_suffix b))
      (pad2_digits i).2 (pad2_digits j).2 hda hdb h
  exact pad2_inj i j hpp

/-! ## Facts about withIdxFrom, galleryTargets and the directory model -/

theorem withIdxFrom_map_snd : ∀ (k : Nat) (l : List α),
    (withIdxFrom k l).map Prod.snd = l := by
  intro k l
  induction l generalizing k with
  | nil => rfl
  | cons x xs ih => simp [withIdxFrom, ih]

theorem withIdxFrom_fst_ge : ∀ (k : Nat) (l : List α) (p : Nat × α),
    p ∈ withIdxFrom k l → k ≤ p.1 := by
  intro k l
  induction l generalizing k with
  | nil => intro p hp; simp [withIdxFrom] at hp
  | cons x xs ih =>
      intro p hp
      rcases List.mem_cons.mp hp with he | hm
      · subst he; simp
      · have := ih (k + 1) p hm
        omega

theorem withIdxFrom_nodup_fst : ∀ (k : Nat) (l : List α),
    ((withIdxFrom k l).map Prod.fst).Nodup := by
  intro k l
  induction l generalizing k with
  | nil => simp [withIdxFrom]
  | cons x xs ih =>
      simp only [withIdxFrom, List.map_cons, List.nodup_cons]
      constructor
      · intro hmem
        obtain ⟨p, hp, hpk⟩ := List.mem_map.mp hmem
        have := withIdxFrom_fst_ge (k + 1) xs p hp
        omega
      · exact ih (k + 1)

theorem fsErase_names (fs : FS) (m n : PStr) :
    n ∈ fsNames (fsErase fs m) ↔ (n ∈ fsNames fs ∧ n ≠ m) := by
  unfold fsErase fsNames
  constructor
  · intro h
    obtain ⟨e, he, hen⟩ := List.mem_map.mp h
    obtain ⟨hefs, hpe⟩ := List.mem_filter.mp he
    refine ⟨List.mem_map.mpr ⟨e, hefs, hen⟩, ?_⟩
    rw [← hen]
    simpa using hpe
  · intro ⟨h1, h2⟩
    obtain ⟨e, he, hen⟩ := List.mem_map.mp h1
    refine List.mem_map.mpr ⟨e, List.mem_filter.mpr ⟨he, ?_⟩, hen⟩
    simp [hen, h2]

theorem fsRename_some (fs : FS) (o d : PStr) (h : o ∈ fsNames fs) :
    ∃ fs', fsRename fs o d = some fs' := by
  unfold fsRename fsLookup
  obtain ⟨e, he, hen⟩ := List.mem_map.mp h
  have hfind : ∃ x, fs.find? (fun e => decide (e.1 = o)) = some x := by
    rw [← Option.isSome_iff_exists]
    rw [List.find?_isSome]
    exact ⟨e, he, by simp [hen]⟩
  obtain ⟨x, hx⟩ := hfind
  rw [hx]
  exact ⟨_, rfl⟩

theorem fsRename_names (fs : FS) (o d : PStr) (fs' : FS)
    (h : fsRename fs o d = some fs') :
    ∀ n, n ∈ fsNames fs' ↔ (n = d ∨ (n ∈ fsNames fs ∧ n ≠ o ∧ n ≠ d)) := by
  intro n
  unfold fsRename at h
  cases hl : fsLookup fs o with
  | none => rw [hl] at h; exact absurd h (by simp)
  | some c =>
      rw [hl] at h
      have hfs' : fs' = fsErase (fsErase fs o) d ++ [(d, c)] := by
        injection h with h'
        exact h'.symm
      subst hfs'
      unfold fsNames
      rw [List.map_append, List.mem_append]
      constructor
      · intro hc
        rcases hc with hm | hm
        · obtain ⟨h1, h2⟩ := (fsErase_names (fsErase fs o) d n).mp hm
          obtain ⟨h3, h4⟩ := (fsErase_names fs o n).mp h1
          exact Or.inr ⟨h3, h4, h2⟩
        · simp at hm
          exact Or.inl hm
      · intro hc
        rcases hc with he | ⟨h1, h2, h3⟩
        · subst he; simp
        · exact Or.inl ((fsErase_names (fsErase fs o) d n).mpr
            ⟨(fsErase_names fs o n).mpr ⟨h1, h2⟩, h3⟩)

theorem stageRun_ok : ∀ (pending : List (PStr × PStr)) (fs : FS),
    (∀ p ∈ pending, p.1 ∈ fsNames fs) →
    ((pending.map Prod.fst).Nodup) →
    (∀ p ∈ pending, (tempPfx ++ p.1) ∉ fsNames fs) →
    (stageRun fs [] pending).temps = pending.map (fun p => (tempPfx ++ p.1, p.2))
      ∧ (stageRun fs [] pending).oracle = []
      ∧ ((stageRun fs [] pending).attempts.map (fun a => a.2.2)
          = pending.map (fun p => tempPfx ++ p.1))
      ∧ (∀ a ∈ (stageRun fs [] pending).attempts, a.2.2 ∉ fsNames a.1)
      ∧ (∀ n, n ∈ fsNames (stageRun fs [] pending).fs ↔
          ((n ∈ fsNames fs ∧ n ∉ pending.map Prod.fst)
            ∨ ∃ o ∈ pending.map Prod.fst, n = tempPfx ++ o)) := by
  intro pending
  induction pending with
  | nil =>
      intro fs _ _ _
      refine ⟨rfl, rfl, rfl, ?_, ?_⟩
      · intro a ha; simp [stageRun] at ha
      · intro n; simp [stageRun]
  | cons hd rest ih =>
      obtain ⟨o, t⟩ := hd
      intro fs hA hB hC
      have hofs : o ∈ fsNames fs := hA (o, t) (by simp)
      have htempo : (tempPfx ++ o) ∉ fsNames fs := hC (o, t) (by simp)
      obtain ⟨fs1, hfs1⟩ := fsRename_some fs o (tempPfx ++ o) hofs
      have hnames1 := fsRename_names fs o (tempPfx ++ o) fs1 hfs1
      have hBc : ((o, t).1 :: rest.map Prod.fst).Nodup := by simpa using hB
      have hB1 : ((rest.map Prod.fst)).Nodup := (List.nodup_cons.mp hBc).2
      have honotin : o ∉ rest.map Prod.fst := (List.nodup_cons.mp hBc).1
      have hrestfs : ∀ m ∈ rest.map Prod.fst, m ∈ fsNames fs := by
        intro m hm
        obtain ⟨p, hp, hpm⟩ := List.mem_map.mp hm
        exact hpm ▸ hA p (by simp [hp])
      have htempnotrest : (tempPfx ++ o) ∉ rest.map Prod.fst := by
        intro hmem
        exact htempo (hrestfs _ hmem)
      have hA1 : ∀ p ∈ rest, p.1 ∈ fsNames fs1 := by
        intro p hp
        rw [hnames1 p.1]
        refine Or.inr ⟨hA p (by simp [hp]), ?_, ?_⟩
        · intro he
          exact honotin (he ▸ List.mem_map_of_mem Prod.fst hp)
        · intro he
          exact htempo (he ▸ hA p (by simp [hp]))
      have hC1 : ∀ p ∈ rest, (tempPfx ++ p.1) ∉ fsNames fs1 := by
        intro p hp hmem
        rw [hnames1 _] at hmem
        rcases hmem with he | ⟨h1, _, _⟩
        · have : p.1 = o := List.append_cancel_left he
          exact honotin (this ▸ List.mem_map_of_mem Prod.fst hp)
        · exact hC p (by simp [hp]) h1
      obtain ⟨ih1, ih2, ih3, ih4, ih5⟩ := ih fs1 hA1 hB1 hC1
      have hstep : stageRun fs [] ((o, t) :: rest)
          = ⟨(stageRun fs1 [] rest).fs, (tempPfx ++ o, t) :: (stageRun fs1 [] rest).temps,
             (stageRun fs1 [] rest).oracle,
             (fs, o, tempPfx ++ o) :: (stageRun fs1 [] rest).attempts,
             (stageRun fs1 [] rest).staged + 1, (stageRun fs1 [] rest).failed⟩ := by
        simp only [stageRun, oHead, oTail]
        rw [if_pos trivial, hfs1]
      refine ⟨?_, ?_, ?_, ?_, ?_⟩
      · rw [hstep]
        simp only [List.map_cons]
        rw [← ih1]
      · rw [hstep]
        exact ih2
      · rw [hstep]
        simp only [List.map_cons]
        rw [← ih3]
      · rw [hstep]
        intro a ha
        rcases List.mem_cons.mp ha with he | hm
        · subst he
          exact htempo
        · exact ih4 a hm
      · rw [hstep]
        intro n
        show n ∈ fsNames (stageRun fs1 [] rest).fs ↔ _
        rw [ih5 n]
        constructor
        · intro h
          rcases h with ⟨hin1, hnotrest⟩ | ⟨o', ho', he⟩
          · rw [hnames1 n] at hin1
            rcases hin1 with rfl | ⟨hfsn, hno, _⟩
            · exact Or.inr ⟨o, by simp, rfl⟩
            · refine Or.inl ⟨hfsn, ?_⟩
              simp only [List.map_cons, List.mem_cons]
              push_neg
              exact ⟨hno, hnotrest⟩
          · exact Or.inr ⟨o', by simp [ho'], he⟩
        · intro h
          rcases h with ⟨hfsn, hnotall⟩ | ⟨o', ho', he⟩
          · simp only [List.map_cons, List.mem_cons] at hnotall
            push_neg at hnotall
            refine Or.inl ⟨?_, hnotall.2⟩
            rw [hnames1 n]
            refine Or.inr ⟨hfsn, hnotall.1, ?_⟩
            intro he
            exact htempo (he ▸ hfsn)
          · simp only [List.map_cons, List.mem_cons] at ho'
            rcases ho' with rfl | hrest
            · refine Or.inl ⟨?_, ?_⟩
              · rw [hnames1 n]
                exact Or.inl he
              · rw [he]
                exact htempnotrest
            · exact Or.inr ⟨o', hrest, he⟩

theorem finalizeRun_ok : ∀ (pending : List (PStr × PStr)) (fs : FS),
    (∀ p ∈ pending, p.1 ∈ fsNames fs) →
    ((pending.map Prod.fst).Nodup) →
    ((pending.map Prod.snd).Nodup) →
    (∀ p ∈ pending, p.2 ∉ fsNames fs) →
    (∀ p ∈ pending, ∀ q ∈ pending, p.2 ≠ q.1) →
    ((finalizeRun fs [] pending).attempts.map (fun a => a.2.2) = pending.map Prod.snd)
      ∧ (∀ a ∈ (finalizeRun fs [] pending).attempts, a.2.2 ∉ fsNames a.1) := by
  intro pending
  induction pending with
  | nil =>
      intro fs _ _ _ _ _
      refine ⟨rfl, ?_⟩
      intro a ha; simp [finalizeRun] at ha
  | cons hd rest ih =>
      obtain ⟨tm, t⟩ := hd
      intro fs hA hB hC hD hE
      have htmfs : tm ∈ fsNames fs := hA (tm, t) (by simp)
      have htfs : t ∉ fsNames fs := hD (tm, t) (by simp)
      obtain ⟨fs1, hfs1⟩ := fsRename_some fs tm t htmfs
      have hnames1 := fsRename_names fs tm t fs1 hfs1
      have hBc : ((tm, t).1 :: rest.map Prod.fst).Nodup := by simpa using hB
      have hB1 : ((rest.map Prod.fst)).Nodup := (List.nodup_cons.mp hBc).2
      have hCc : ((tm, t).2 :: rest.map Prod.snd).Nodup := by simpa using hC
      have hC1 : ((rest.map Prod.snd)).Nodup := (List.nodup_cons.mp hCc).2
      have htnotrest : t ∉ rest.map Prod.snd := (List.nodup_cons.mp hCc).1
      have htmnotrest : tm ∉ rest.map Prod.fst := (List.nodup_cons.mp hBc).1
      have hA1 : ∀ p ∈ rest, p.1 ∈ fsNames fs1 := by
        intro p hp
        rw [hnames1 p.1]
        refine Or.inr ⟨hA p (by simp [hp]), ?_, ?_⟩
        · intro he
          exact htmnotrest (he ▸ List.mem_map_of_mem Prod.fst hp)
        · intro he
          exact (hE (tm, t) (by simp) p (by simp [hp])) he.symm
      have hD1 : ∀ p ∈ rest, p.2 ∉ fsNames fs1 := by
        intro p hp hmem
        rw [hnames1 _] at hmem
        rcases hmem with he | ⟨h1, _, _⟩
        · exact htnotrest (he ▸ List.mem_map_of_mem Prod.snd hp)
        · exact hD p (by simp [hp]) h1
      have hE1 : ∀ p ∈ rest, ∀ q ∈ rest, p.2 ≠ q.1 := by
        intro p hp q hq
        exact hE p (by simp [hp]) q (by simp [hq])
      obtain ⟨ih1, ih2⟩ := ih fs1 hA1 hB1 hC1 hD1 hE1
      have hstep : finalizeRun fs [] ((tm, t) :: rest)
          = ⟨(finalizeRun fs1 [] rest).fs, (finalizeRun fs1 [] rest).oracle,
             (fs, tm, t) :: (finalizeRun fs1 [] rest).attempts,
             (finalizeRun fs1 [] rest).finalized + 1, (finalizeRun fs1 [] rest).failed⟩ := by
        simp only [finalizeRun, oHead, oTail]
        rw [if_pos trivial, hfs1]
      refine ⟨?_, ?_⟩
      · rw [hstep]
        simp only [List.map_cons]
        rw [← ih1]
      · rw [hstep]
        intro a ha
        rcases List.mem_cons.mp ha with he | hm
        · subst he
          exact htfs
        · exact ih2 a hm

theorem hasCollision_false (atts : List Att) (h : ∀ a ∈ atts, a.2.2 ∉ fsNames a.1) :
    hasCollision atts = false := by
  unfold hasCollision
  rw [List.any_eq_false]
  intro a ha
  simp only [List.any_eq_true, decide_eq_true_eq, not_exists, not_and]
  intro e he hedst
  exact h a ha (hedst ▸ List.mem_map_of_mem Prod.fst he)

theorem temp_isPrefixOf (x : PStr) : tempPfx.isPrefixOf (tempPfx ++ x) = true := by
  rw [List.isPrefixOf_iff_prefix]
  exact List.prefix_append tempPfx x

theorem withIdx_mem_image (fs0 : FS) (q : Nat × (PStr × Nat))
    (hq : q ∈ withIdxFrom 1 (normalize_gallery_order (fs0.filter (fun e => is_image e.1)))) :
    q.2 ∈ fs0 ∧ is_image q.2.1 = true := by
  have he : q.2 ∈ normalize_gallery_order (fs0.filter (fun e => is_image e.1)) := by
    have hm := withIdxFrom_map_snd 1 (normalize_gallery_order (fs0.filter (fun e => is_image e.1)))
    rw [← hm]
    exact List.mem_map_of_mem Prod.snd hq
  have hperm := sortLt_perm (fun a b => lexLt (lowStr a.1) (lowStr b.1))
    (fs0.filter (fun e => is_image e.1))
  have hf : q.2 ∈ fs0.filter (fun e => is_image e.1) := by
    unfold normalize_gallery_order at he
    exact hperm.mem_iff.mp he
  have := List.mem_filter.mp hf
  exact ⟨this.1, this.2⟩

theorem galleryTargets_spec (fs0 : FS) (p : PStr × PStr) (hp : p ∈ galleryTargets fs0) :
    ∃ i e, (i, e) ∈ withIdxFrom 1 (normalize_gallery_order (fs0.filter (fun e => is_image e.1)))
      ∧ p = (e.1, target_name i e.1) ∧ e ∈ fs0 ∧ is_image e.1 = true := by
  unfold galleryTargets at hp
  obtain ⟨q, hq, hpq⟩ := List.mem_map.mp hp
  obtain ⟨i, e⟩ := q
  obtain ⟨hefs, himg⟩ := withIdx_mem_image fs0 (i, e) hq
  exact ⟨i, e, hq, hpq.symm, hefs, himg⟩

theorem galleryTargets_map_fst (fs0 : FS) :
    (galleryTargets fs0).map Prod.fst
      = (normalize_gallery_order (fs0.filter (fun e => is_image e.1))).map Prod.fst := by
  unfold galleryTargets
  rw [List.map_map]
  rw [show (Prod.fst ∘ fun p : Nat × (PStr × Nat) => (p.2.1, target_name p.1 p.2.1))
      = ((fun e : PStr × Nat => e.1) ∘ Prod.snd) from rfl]
  rw [← List.map_map, withIdxFrom_map_snd]

theorem galleryTargets_fst_nodup (fs0 : FS) (hnd : (fsNames fs0).Nodup) :
    ((galleryTargets fs0).map Prod.fst).Nodup := by
  rw [galleryTargets_map_fst]
  have hperm := sortLt_perm (fun a b => lexLt (lowStr a.1) (lowStr b.1))
    (fs0.filter (fun e => is_image e.1))
  have hmapperm := hperm.map Prod.fst
  have hsub : ((fs0.filter (fun e => is_image e.1)).map Prod.fst).Sublist (fs0.map Prod.fst) :=
    (List.filter_sublist fs0).map Prod.fst
  have hnodup : ((fs0.filter (fun e => is_image e.1)).map Prod.fst).Nodup :=
    List.Nodup.sublist hsub hnd
  unfold normalize_gallery_order
  exact hmapperm.nodup_iff.mpr hnodup

theorem galleryTargets_snd_nodup (fs0 : FS) (_hnd : (fsNames fs0).Nodup) :
    ((galleryTargets fs0).map Prod.snd).Nodup := by
  unfold galleryTargets
  rw [List.map_map]
  have hfstnodup := withIdxFrom_nodup_fst 1
    (normalize_gallery_order (fs0.filter (fun e => is_image e.1)))
  have hpairnodup : (withIdxFrom 1
      (normalize_gallery_order (fs0.filter (fun e => is_image e.1)))).Nodup :=
    List.Nodup.of_map Prod.fst hfstnodup
  apply List.Nodup.map_on ?_ hpairnodup
  intro q1 hq1 q2 hq2 heq
  have h1 := withIdx_mem_image fs0 q1 hq1
  have h2 := withIdx_mem_image fs0 q2 hq2
  have hij : q1.1 = q2.1 := target_name_inj q1.1 q2.1 q1.2.1 q2.2.1 h1.2 h2.2 heq
  exact List.inj_on_of_nodup_map hfstnodup hq1 hq2 hij

/-- C3 counterexample: with Gallery = {0.jpg, _temp_0.jpg} (contents 0 and 1)
and every OS call succeeding, the very first staging rename's destination
_temp_0.jpg is a name currently held by the other file, so two files contend
for one name mid-operation; the overwrite then silently destroys content 1,
leaving only 02.jpg on disk. -/
theorem two_phase_collision_counterexample :
    hasCollision
        (sync_gallery [] [(nm ("0.jpg"), 0), (nm ("_temp_0.jpg"), 1)] false []).attempts = true
      ∧ (sync_gallery [] [(nm ("0.jpg"), 0), (nm ("_temp_0.jpg"), 1)] false []).fs
        = [(nm ("02.jpg"), 0)] := by decide

/-- C3 amended: provided no file name in the Gallery directory already begins
with the staging marker _temp_ and every OS rename call succeeds, the
two-phase protocol is contention-free: every rename is staged to its
_temp_-prefixed name before any finalization happens, each attempted
destination (temp name or target name) is held by no file at the moment of
its rename, and no staging temp name ever equals a real NN.ext target name.
(Without the _temp_ proviso the claim as stated is false: see
two_phase_collision_counterexample.) -/
theorem two_phase_rename_safe (pre : PStr) (fs0 : FS)
    (hnd : (fsNames fs0).Nodup)
    (htmp : ∀ e ∈ fs0, tempPfx.isPrefixOf e.1 = false) :
    hasCollision (sync_gallery pre fs0 false []).attempts = false
      ∧ ((sync_gallery pre fs0 false []).attempts.map (fun a => a.2.2)
          = (sync_gallery pre fs0 false []).renames.map (fun p => tempPfx ++ p.1)
            ++ (sync_gallery pre fs0 false []).renames.map Prod.snd)
      ∧ (∀ p ∈ (sync_gallery pre fs0 false []).renames, ∀ q ∈ galleryTargets fs0,
          tempPfx ++ p.1 ≠ q.2) := by
  have hRmem : ∀ p ∈ (galleryTargets fs0).filter (fun p => decide (p.1 ≠ p.2)),
      p ∈ galleryTargets fs0 ∧ p.1 ≠ p.2 := by
    intro p hp
    have := List.mem_filter.mp hp
    exact ⟨this.1, by simpa using this.2⟩
  have hnotemp : ∀ x : PStr, tempPfx ++ x ∉ fsNames fs0 := by
    intro x hmem
    obtain ⟨f, hf, hfe⟩ := List.mem_map.mp hmem
    have hh := htmp f hf
    rw [hfe, temp_isPrefixOf] at hh
    simp at hh
  have htargets_ne_temp : ∀ q ∈ galleryTargets fs0, ∀ x : PStr, tempPfx ++ x ≠ q.2 := by
    intro q hq x
    obtain ⟨i, e, _, hqe, _, _⟩ := galleryTargets_spec fs0 q hq
    rw [hqe]
    exact temp_ne_target x i e.1
  -- preconditions of the staging pass
  have hA : ∀ p ∈ (galleryTargets fs0).filter (fun p => decide (p.1 ≠ p.2)),
      p.1 ∈ fsNames fs0 := by
    intro p hp
    obtain ⟨hpT, _⟩ := hRmem p hp
    obtain ⟨i, e, _, hpe, hefs, _⟩ := galleryTargets_spec fs0 p hpT
    rw [hpe]
    exact List.mem_map_of_mem Prod.fst hefs
  have hB : (((galleryTargets fs0).filter (fun p => decide (p.1 ≠ p.2))).map Prod.fst).Nodup :=
    List.Nodup.sublist ((List.filter_sublist _).map Prod.fst) (galleryTargets_fst_nodup fs0 hnd)
  have hC : ∀ p ∈ (galleryTargets fs0).filter (fun p => decide (p.1 ≠ p.2)),
      (tempPfx ++ p.1) ∉ fsNames fs0 := fun p _ => hnotemp p.1
  obtain ⟨hs1, hs2, hs3, hs4, hs5⟩ :=
    stageRun_ok ((galleryTargets fs0).filter (fun p => decide (p.1 ≠ p.2))) fs0 hA hB hC
  -- preconditions of the finalize pass
  have hA2 : ∀ p ∈ ((galleryTargets fs0).filter (fun p => decide (p.1 ≠ p.2))).map
        (fun p => (tempPfx ++ p.1, p.2)),
      p.1 ∈ fsNames (stageRun fs0 []
        ((galleryTargets fs0).filter (fun p => decide (p.1 ≠ p.2)))).fs := by
    intro p hp
    obtain ⟨r, hr, hrp⟩ := List.mem_map.mp hp
    rw [hs5]
    exact Or.inr ⟨r.1, List.mem_map_of_mem Prod.fst hr, by rw [← hrp]⟩
  have hB2 : ((((galleryTargets fs0).filter (fun p => decide (p.1 ≠ p.2))).map
        (fun p => (tempPfx ++ p.1, p.2))).map Prod.fst).Nodup := by
    rw [List.map_map]
    rw [show (Prod.fst ∘ fun p : PStr × PStr => (tempPfx ++ p.1, p.2))
        = ((fun x : PStr => tempPfx ++ x) ∘ Prod.fst) from rfl]
    rw [← List.map_map]
    exact List.Nodup.map (fun a b hab => List.append_cancel_left hab) hB
  have hC2 : ((((galleryTargets fs0).filter (fun p => decide (p.1 ≠ p.2))).map
        (fun p => (tempPfx ++ p.1, p.2))).map Prod.snd).Nodup := by
    rw [List.map_map]
    rw [show (Prod.snd ∘ fun p : PStr × PStr => (tempPfx ++ p.1, p.2)) = Prod.snd from rfl]
    exact List.Nodup.sublist ((List.filter_sublist _).map Prod.snd)
      (galleryTargets_snd_nodup fs0 hnd)
  have hD2 : ∀ p ∈ ((galleryTargets fs0).filter (fun p => decide (p.1 ≠ p.2))).map
        (fun p => (tempPfx ++ p.1, p.2)),
      p.2 ∉ fsNames (stageRun fs0 []
        ((galleryTargets fs0).filter (fun p => decide (p.1 ≠ p.2)))).fs := by
    intro p hp hmem
    obtain ⟨r, hrR, hrp⟩ := List.mem_map.mp hp
    obtain ⟨hrT, hrne⟩ := hRmem r hrR
    obtain ⟨i, e, _, hre, _, himg⟩ := galleryTargets_spec fs0 r hrT
    have hp2 : p.2 = r.2 := by rw [← hrp]
    have hr2 : r.2 = target_name i e.1 := by rw [hre]
    rw [hs5] at hmem
    rcases hmem with ⟨htfs0, htnotR⟩ | ⟨o', _, hteq⟩
    · -- the target name is already on disk outside the rename plan
      have himgt : is_image p.2 = true := by
        rw [hp2, hr2]
        exact is_image_target i e.1 himg
      obtain ⟨f, hf, hfe⟩ := List.mem_map.mp htfs0
      have hffilter : f ∈ fs0.filter (fun e => is_image e.1) := by
        refine List.mem_filter.mpr ⟨hf, ?_⟩
        rw [hfe]
        exact himgt
      have hpO : p.2 ∈ (normalize_gallery_order
          (fs0.filter (fun e => is_image e.1))).map Prod.fst := by
        have hperm := (sortLt_perm (fun a b => lexLt (lowStr a.1) (lowStr b.1))
          (fs0.filter (fun e => is_image e.1))).map Prod.fst
        unfold normalize_gallery_order
        exact hperm.mem_iff.mpr (hfe ▸ List.mem_map_of_mem Prod.fst hffilter)
      rw [← galleryTargets_map_fst] at hpO
      obtain ⟨P, hPT, hPe⟩ := List.mem_map.mp hpO
      by_cases hPP : P.1 = P.2
      · -- P keeps its name, which therefore is P's own target equal to r's
        have hsnd : P.2 = r.2 := by rw [← hPP, hPe, hp2]
        have hPr : P = r := by
          have hnodupsnd := galleryTargets_snd_nodup fs0 hnd
          exact List.inj_on_of_nodup_map hnodupsnd hPT hrT hsnd
        rw [hPr] at hPP
        exact hrne hPP
      · have hPR : P ∈ (galleryTargets fs0).filter (fun p => decide (p.1 ≠ p.2)) :=
          List.mem_filter.mpr ⟨hPT, by simpa using hPP⟩
        exact htnotR (hPe ▸ List.mem_map_of_mem Prod.fst hPR)
    · rw [hp2, hr2] at hteq
      exact temp_ne_target o' i e.1 hteq.symm
  have hE2 : ∀ p ∈ ((galleryTargets fs0).filter (fun p => decide (p.1 ≠ p.2))).map
        (fun p => (tempPfx ++ p.1, p.2)),
      ∀ q ∈ ((galleryTargets fs0).filter (fun p => decide (p.1 ≠ p.2))).map
        (fun p => (tempPfx ++ p.1, p.2)),
      p.2 ≠ q.1 := by
    intro p hp q hq
    obtain ⟨r, hrR, hrp⟩ := List.mem_map.mp hp
    obtain ⟨r', hrR', hrq⟩ := List.mem_map.mp hq
    obtain ⟨hrT, _⟩ := hRmem r hrR
    have hp2 : p.2 = r.2 := by rw [← hrp]
    have hq1 : q.1 = tempPfx ++ r'.1 := by rw [← hrq]
    rw [hp2, hq1]
    intro hcontra
    exact htargets_ne_temp r hrT r'.1 hcontra.symm
  obtain ⟨hf1, hf2⟩ := finalizeRun_ok
    (((galleryTargets fs0).filter (fun p => decide (p.1 ≠ p.2))).map
      (fun p => (tempPfx ++ p.1, p.2)))
    (stageRun fs0 [] ((galleryTargets fs0).filter (fun p => decide (p.1 ≠ p.2)))).fs
    hA2 hB2 hC2 hD2 hE2
  -- now reduce sync_gallery to its branch
  cases hi : fs0.filter (fun e => is_image e.1) with
  | nil =>
      have hsync : sync_gallery pre fs0 false [] = ⟨fs0, [], [], [], []⟩ := by
        unfold sync_gallery
        rw [hi]
      rw [hsync]
      refine ⟨rfl, rfl, ?_⟩
      intro p hp
      simp at hp
  | cons a l =>
      cases hr : (galleryTargets fs0).filter (fun p => decide (p.1 ≠ p.2)) with
      | nil =>
          have hsync : sync_gallery pre fs0 false []
              = ⟨fs0, build_gallery_list_from_disk pre fs0,
                 (galleryTargets fs0).map (fun p => pre ++ p.2), [], []⟩ := by
            unfold sync_gallery
            rw [hi]
            dsimp only
            rw [hr]
            rfl
          rw [hsync]
          refine ⟨rfl, rfl, ?_⟩
          intro p hp
          simp at hp
      | cons r1 rs =>
          have hsync : sync_gallery pre fs0 false []
              = ⟨(finalizeRun (stageRun fs0 [] (r1 :: rs)).fs
                    (stageRun fs0 [] (r1 :: rs)).oracle
                    (stageRun fs0 [] (r1 :: rs)).temps).fs,
                 build_gallery_list_from_disk pre
                   (finalizeRun (stageRun fs0 [] (r1 :: rs)).fs
                     (stageRun fs0 [] (r1 :: rs)).oracle
                     (stageRun fs0 [] (r1 :: rs)).temps).fs,
                 (galleryTargets fs0).map (fun p => pre ++ p.2),
                 r1 :: rs,
                 (stageRun fs0 [] (r1 :: rs)).attempts
                   ++ (finalizeRun (stageRun fs0 [] (r1 :: rs)).fs
                        (stageRun fs0 [] (r1 :: rs)).oracle
                        (stageRun fs0 [] (r1 :: rs)).temps).attempts⟩ := by
            unfold sync_gallery
            rw [hi]
            dsimp only
            rw [hr]
            rfl
          rw [hsync, ← hr]
          rw [hs2, hs1]
          refine ⟨?_, ?_, ?_⟩
          · apply hasCollision_false
            intro att hatt
            rcases List.mem_append.mp hatt with hms | hmf
            · exact hs4 att hms
            · exact hf2 att hmf
          · rw [List.map_append, hs3, hf1]
            congr 1
            rw [List.map_map]
            rfl
          · intro p hp q hq hcontra
            exact htargets_ne_temp q hq p.1 hcontra

/-- Witness for the amended C3 on the concrete directory
{b.jpg, a.png, 01.jpg}. -/
theorem two_phase_rename_safe_witness :
    hasCollision (sync_gallery []
        [(nm ("b.jpg"), 0), (nm ("a.png"), 1), (nm ("01.jpg"), 2)] false []).attempts = false
      ∧ ((sync_gallery []
            [(nm ("b.jpg"), 0), (nm ("a.png"), 1), (nm ("01.jpg"), 2)] false []).attempts.map
              (fun a => a.2.2)
          = (sync_gallery []
              [(nm ("b.jpg"), 0), (nm ("a.png"), 1), (nm ("01.jpg"), 2)] false []).renames.map
                (fun p => tempPfx ++ p.1)
            ++ (sync_gallery []
                [(nm ("b.jpg"), 0), (nm ("a.png"), 1), (nm ("01.jpg"), 2)] false []).renames.map
                  Prod.snd)
      ∧ (∀ p ∈ (sync_gallery []
            [(nm ("b.jpg"), 0), (nm ("a.png"), 1), (nm ("01.jpg"), 2)] false []).renames,
          ∀ q ∈ galleryTargets [(nm ("b.jpg"), 0), (nm ("a.png"), 1), (nm ("01.jpg"), 2)],
          tempPfx ++ p.1 ≠ q.2) :=
  two_phase_rename_safe [] [(nm ("b.jpg"), 0), (nm ("a.png"), 1), (nm ("01.jpg"), 2)]
    (by decide) (by decide)

/-! ## Claims about the compiler (C6-C10) -/

/-- C7: a project yields a listing entry and a detail record exactly when its
lowercased status is published or coming-soon; an empty status cell loads as
draft, and draft is not published — a hard filter on both outputs. -/
theorem publish_gate (projects : List Project)
    (descMap : PStr → List PStr) (specsMap : PStr → List (PStr × PStr))
    (defs : PStr → Option SpecDef) (existingGallery : PStr → List PStr) :
    (∀ e, e ∈ mainListing projects ↔
        ∃ p ∈ projects, should_publish p.status = true ∧ e = build_listing_entry p)
      ∧ (∀ pr, pr ∈ mainDetails projects descMap specsMap defs existingGallery ↔
          ∃ p ∈ projects, should_publish p.status = true
            ∧ pr = (p.id, build_detail_json p (descMap p.id)
                (build_specs_array (specsMap p.id) defs) (existingGallery p.id)))
      ∧ (∀ s, should_publish s = true ↔
          (lowStr s = nm ("published") ∨ lowStr s = nm ("coming-soon")))
      ∧ loadStatusField [] = nm ("draft")
      ∧ should_publish (nm ("draft")) = false := by
  refine ⟨?_, ?_, ?_, by decide, by decide⟩
  · intro e
    unfold mainListing
    simp only [List.mem_map, List.mem_filter]
    constructor
    · rintro ⟨p, ⟨hp, hpub⟩, rfl⟩
      exact ⟨p, hp, hpub, rfl⟩
    · rintro ⟨p, hp, hpub, rfl⟩
      exact ⟨p, ⟨hp, hpub⟩, rfl⟩
  · intro pr
    unfold mainDetails
    simp only [List.mem_map, List.mem_filter]
    constructor
    · rintro ⟨p, ⟨hp, hpub⟩, rfl⟩
      exact ⟨p, hp, hpub, rfl⟩
    · rintro ⟨p, hp, hpub, rfl⟩
      exact ⟨p, ⟨hp, hpub⟩, rfl⟩
  · intro s
    unfold should_publish
    simp only [decide_eq_true_eq, List.mem_cons, List.not_mem_nil, or_false]

/-- C6: the specs array is sorted ascending by order; filtering it to any
one order value gives exactly the joined values in source encounter order
(stability); every element comes from a value whose key has an emit=true
definition, with label/showOn/order copied from that definition; every
emitting value appears; and no element has an unknown or emit=false key. -/
theorem specs_array_correct (ps : List (PStr × PStr)) (defs : PStr → Option SpecDef) :
    (build_specs_array ps defs).Pairwise (fun a b => a.order ≤ b.order)
      ∧ (∀ o : Nat, (build_specs_array ps defs).filter (fun s => decide (s.order = o))
          = (emittedSpecs ps defs).filter (fun s => decide (s.order = o)))
      ∧ (∀ s ∈ build_specs_array ps defs, ∃ d, defs s.key = some d ∧ d.emit = true
          ∧ s.label = d.label ∧ s.showOn = d.show_on ∧ s.order = d.order
          ∧ (s.key, s.value) ∈ ps)
      ∧ (∀ kv ∈ ps, ∀ d, defs kv.1 = some d → d.emit = true →
          (⟨kv.1, d.label, kv.2, d.show_on, d.order⟩ : SpecOut) ∈ build_specs_array ps defs)
      ∧ (∀ s ∈ build_specs_array ps defs,
          defs s.key ≠ none ∧ ¬ ∃ d, defs s.key = some d ∧ d.emit = false) := by
  have hasym : ∀ a b : SpecOut, decide (a.order < b.order) = true →
      decide (b.order < a.order) = false := by
    intro a b h
    simp only [decide_eq_true_eq] at h
    simp only [decide_eq_false_iff_not]
    omega
  have htr : ∀ a b c : SpecOut, decide (a.order < b.order) = false →
      decide (b.order < c.order) = false → decide (a.order < c.order) = false := by
    intro a b c h1 h2
    simp only [decide_eq_false_iff_not] at h1 h2 ⊢
    omega
  have hmem_emitted : ∀ s, s ∈ emittedSpecs ps defs ↔ s ∈ build_specs_array ps defs := by
    intro s
    exact (List.Perm.mem_iff (sortLt_perm _ _)).symm
  have hchar : ∀ s ∈ emittedSpecs ps defs, ∃ d, defs s.key = some d ∧ d.emit = true
      ∧ s.label = d.label ∧ s.showOn = d.show_on ∧ s.order = d.order
      ∧ (s.key, s.value) ∈ ps := by
    intro s hs
    obtain ⟨kv, hkv, hf⟩ := List.mem_filterMap.mp hs
    cases hd : defs kv.1 with
    | none => rw [hd] at hf; simp at hf
    | some d =>
        rw [hd] at hf
        dsimp only at hf
        by_cases he : d.emit = true
        · rw [if_pos he] at hf
          have hs' : s = ⟨kv.1, d.label, kv.2, d.show_on, d.order⟩ := by
            injection hf with h'
            exact h'.symm
          subst hs'
          exact ⟨d, hd, he, rfl, rfl, rfl, hkv⟩
        · rw [if_neg he] at hf
          simp at hf
  refine ⟨?_, ?_, ?_, ?_, ?_⟩
  · have hp := sortLt_pairwise (fun a b : SpecOut => decide (a.order < b.order)) hasym htr
      (emittedSpecs ps defs)
    refine List.Pairwise.imp ?_ hp
    intro a b h
    simp only [decide_eq_false_iff_not] at h
    omega
  · intro o
    exact sortLt_filter _ _ (by
      intro a b ha hb
      simp only [decide_eq_true_eq] at ha hb
      simp only [decide_eq_false_iff_not]
      omega) (emittedSpecs ps defs)
  · intro s hs
    exact hchar s ((hmem_emitted s).mpr hs)
  · intro kv hkv d hd he
    apply (hmem_emitted _).mp
    apply List.mem_filterMap.mpr
    refine ⟨kv, hkv, ?_⟩
    rw [hd]
    dsimp only
    rw [if_pos he]
  · intro s hs
    obtain ⟨d, hd, he, _⟩ := hchar s ((hmem_emitted s).mpr hs)
    refine ⟨by rw [hd]; simp, ?_⟩
    rintro ⟨d', hd', he'⟩
    rw [hd] at hd'
    injection hd' with h'
    rw [← h'] at he'
    rw [he] at he'
    exact Bool.noConfusion he'

/-- C8 (code bug): the year cell "²" (U+00B2) satisfies str.isdigit(), so
load_projects calls int("²"), which raises an uncaught ValueError — yet "²"
does not match [0-9]+, for which the spec promises the absent value and
never an exception.  (ASCII digits and non-digit strings behave as
specified; the superscript digits are the divergence.) -/
theorem year_parse_raises_on_superscript :
    loadYearField (nm ("²")) = Except.error ()
      ∧ matchesDigits (nm ("²")) = false
      ∧ loadYearField (nm ("2024")) = Except.ok (some 2024)
      ∧ loadYearField (nm ("20x4")) = Except.ok none := by decide

/-- C9 counterexample: with identical (here empty) manifests the persisted
report is not a single "No changes detected." line — generate_change_report
always emits its header line first. -/
theorem change_report_not_single_line :
    generate_change_report [] []
        = nm ("=== Build Change Report ===\n\nNo changes detected.\n")
      ∧ generate_change_report [] [] ≠ nm ("No changes detected.")
      ∧ generate_change_report [] [] ≠ nm ("No changes detected.\n") := by decide

/-- C9 amended: membership in each emitted bucket coincides with the (single)
classification every id receives — so each id lands in exactly one of
added / removed / changed / unchanged; every section lists a sorted
permutation of its bucket; and when all buckets are empty the report is the
header line "=== Build Change Report ===" followed by a blank line and the
single message "No changes detected." (not that message alone). -/
theorem change_report_correct (old_projects new_projects : List (PStr × PStr)) :
    (∀ pid,
      ((pid ∈ (new_projects.map Prod.fst).filter
            (fun k => decide (k ∉ old_projects.map Prod.fst))
          ↔ classifyId old_projects new_projects pid = ChangeClass.added)
        ∧ (pid ∈ (old_projects.map Prod.fst).filter
              (fun k => decide (k ∉ new_projects.map Prod.fst))
            ↔ classifyId old_projects new_projects pid = ChangeClass.removed
              ∧ pid ∈ old_projects.map Prod.fst)
        ∧ (pid ∈ (new_projects.map Prod.fst).filter
              (fun k => decide (k ∈ old_projects.map Prod.fst)
                && decide (rowGet new_projects k ≠ rowGet old_projects k))
            ↔ classifyId old_projects new_projects pid = ChangeClass.changed)))
      ∧ ((sortedIds ((new_projects.map Prod.fst).filter
            (fun k => decide (k ∉ old_projects.map Prod.fst)))).Pairwise
              (fun a b => lexLt b a = false)
          ∧ (sortedIds ((new_projects.map Prod.fst).filter
              (fun k => decide (k ∉ old_projects.map Prod.fst)))).Perm
                ((new_projects.map Prod.fst).filter
                  (fun k => decide (k ∉ old_projects.map Prod.fst))))
      ∧ ((sortedIds ((old_projects.map Prod.fst).filter
            (fun k => decide (k ∉ new_projects.map Prod.fst)))).Pairwise
              (fun a b => lexLt b a = false)
          ∧ (sortedIds ((old_projects.map Prod.fst).filter
              (fun k => decide (k ∉ new_projects.map Prod.fst)))).Perm
                ((old_projects.map Prod.fst).filter
                  (fun k => decide (k ∉ new_projects.map Prod.fst))))
      ∧ ((sortedIds ((new_projects.map Prod.fst).filter
            (fun k => decide (k ∈ old_projects.map Prod.fst)
              && decide (rowGet new_projects k ≠ rowGet old_projects k)))).Pairwise
              (fun a b => lexLt b a = false)
          ∧ (sortedIds ((new_projects.map Prod.fst).filter
              (fun k => decide (k ∈ old_projects.map Prod.fst)
                && decide (rowGet new_projects k ≠ rowGet old_projects k)))).Perm
                ((new_projects.map Prod.fst).filter
                  (fun k => decide (k ∈ old_projects.map Prod.fst)
                    && decide (rowGet new_projects k ≠ rowGet old_projects k))))
      ∧ ((new_projects.map Prod.fst).filter
            (fun k => decide (k ∉ old_projects.map Prod.fst)) = [] →
         (old_projects.map Prod.fst).filter
            (fun k => decide (k ∉ new_projects.map Prod.fst)) = [] →
         (new_projects.map Prod.fst).filter
            (fun k => decide (k ∈ old_projects.map Prod.fst)
              && decide (rowGet new_projects k ≠ rowGet old_projects k)) = [] →
         generate_change_report old_projects new_projects
           = nm ("=== Build Change Report ===\n\nNo changes detected.\n")) := by
  have hsorted : ∀ l : List PStr, (sortedIds l).Pairwise (fun a b => lexLt b a = false)
      ∧ (sortedIds l).Perm l := by
    intro l
    exact ⟨sortLt_pairwise lexLt lexLt_asymm lexLt_neg_trans l, sortLt_perm lexLt l⟩
  refine ⟨?_, hsorted _, hsorted _, hsorted _, ?_⟩
  · intro pid
    by_cases h1 : pid ∈ new_projects.map Prod.fst <;>
      by_cases h2 : pid ∈ old_projects.map Prod.fst <;>
        by_cases h3 : rowGet new_projects pid ≠ rowGet old_projects pid <;>
          simp [classifyId, h1, h2, h3, List.mem_filter]
  · intro ha hr hc
    unfold generate_change_report
    dsimp only
    rw [ha, hr, hc]
    simp only [ne_eq, not_true_eq_false, if_false, and_self, if_true, List.append_nil,
      List.nil_append, if_neg, ite_false, ite_true]
    rfl

/-- C10 counterexample: an order cell "²" (isdigit-true, int()-rejected)
makes load_descriptions raise ValueError instead of treating the value as
order 0. -/
theorem descriptions_raise_on_superscript :
    descEntries [[(nm ("project_id"), nm ("p1")), (nm ("order"), nm ("²")),
        (nm ("text"), nm ("hello"))]] = Except.error () := by decide

theorem tupLt_false_iff (a b : Nat × PStr) :
    tupLt a b = false ↔ (b.1 ≤ a.1 ∧ (a.1 = b.1 → lexLt a.2 b.2 = false)) := by
  unfold tupLt
  by_cases h1 : a.1 < b.1
  · have hd : decide (a.1 < b.1) = true := by simpa using h1
    rw [hd]
    simp only [Bool.true_or]
    constructor
    · intro h; exact absurd h (by simp)
    · intro h
      exact ((by omega : False)).elim
  · have hd : decide (a.1 < b.1) = false := by simpa using h1
    rw [hd]
    simp only [Bool.false_or]
    by_cases h2 : a.1 = b.1
    · have hd2 : decide (a.1 = b.1) = true := by simpa using h2
      rw [hd2]
      simp only [Bool.true_and]
      constructor
      · intro h; exact ⟨by omega, fun _ => h⟩
      · intro h; exact h.2 h2
    · have hd2 : decide (a.1 = b.1) = false := by simpa using h2
      rw [hd2]
      simp only [Bool.false_and]
      constructor
      · intro _; exact ⟨by omega, fun he => absurd he h2⟩
      · intro _; trivial

theorem tupLt_asymm : ∀ a b : Nat × PStr, tupLt a b = true → tupLt b a = false := by
  intro a b h
  rw [tupLt_false_iff]
  unfold tupLt at h
  simp only [Bool.or_eq_true, Bool.and_eq_true, decide_eq_true_eq] at h
  rcases h with h | ⟨he, hl⟩
  · exact ⟨by omega, fun hba => by omega⟩
  · exact ⟨by omega, fun _ => lexLt_asymm a.2 b.2 hl⟩

theorem tupLt_neg_trans : ∀ a b c : Nat × PStr,
    tupLt a b = false → tupLt b c = false → tupLt a c = false := by
  intro a b c hab hbc
  rw [tupLt_false_iff] at hab hbc ⊢
  obtain ⟨hab1, hab2⟩ := hab
  obtain ⟨hbc1, hbc2⟩ := hbc
  refine ⟨by omega, ?_⟩
  intro hac
  have he1 : a.1 = b.1 := by omega
  have he2 : b.1 = c.1 := by omega
  exact lexLt_neg_trans a.2 b.2 c.2 (hab2 he1) (hbc2 he2)

/-- C10 amended (corrected): provided no order cell is a digit string that
contains a non-decimal digit (those raise ValueError — see
descriptions_raise_on_superscript), load_descriptions keeps exactly the
non-blank-text rows of each project and sorts them by the Python tuple
(order, text): primarily by the numeric order, with equal orders tie-broken
by the paragraph text lexicographically, not by source row order; an order
cell failing isdigit() contributes order 0. -/
theorem load_descriptions_correct (rows : List Row)
    (hok : ∀ r ∈ rows, pyIsDigit (pyStrip (rowGetD r (nm ("order")))) = true →
      (pyStrip (rowGetD r (nm ("order")))).all isDecDigit = true) :
    descEntries rows = Except.ok (descEntriesOk rows)
      ∧ (∀ pid,
          load_descriptions_for (descEntriesOk rows) pid
            = (sortLt tupLt (descFor (descEntriesOk rows) pid)).map Prod.snd
          ∧ (sortLt tupLt (descFor (descEntriesOk rows) pid)).Pairwise
              (fun a b => tupLt b a = false)
          ∧ (sortLt tupLt (descFor (descEntriesOk rows) pid)).Perm
              (descFor (descEntriesOk rows) pid))
      ∧ (∀ a b : Nat × PStr, tupLt b a = false
          ↔ (a.1 ≤ b.1 ∧ (b.1 = a.1 → lexLt b.2 a.2 = false)))
      ∧ (∀ s : PStr, pyIsDigit s = false → parseOrderField s = Except.ok 0) := by
  refine ⟨?_, ?_, fun a b => tupLt_false_iff b a, ?_⟩
  · induction rows with
    | nil => rfl
    | cons r rest ih =>
        have hr := hok r (by simp)
        have hrest := ih (fun r' hr' hd => hok r' (by simp [hr']) hd)
        by_cases hpid : pyStrip (rowGetD r (nm ("project_id"))) = []
        · have e1 : descEntries (r :: rest) = descEntries rest := by
            simp only [descEntries]
            rw [if_pos hpid]
          have e2 : descEntriesOk (r :: rest) = descEntriesOk rest := by
            simp only [descEntriesOk]
            rw [if_pos hpid]
          rw [e1, e2, hrest]
        · by_cases hdig : pyIsDigit (pyStrip (rowGetD r (nm ("order")))) = true
          · have hdec := hr hdig
            have hpv : parseIntOpt (pyStrip (rowGetD r (nm ("order"))))
                = Except.ok (some (decValue (pyStrip (rowGetD r (nm ("order")))))) := by
              unfold parseIntOpt
              rw [if_pos hdig, if_pos hdec]
            have hparse : parseOrderField (pyStrip (rowGetD r (nm ("order"))))
                = Except.ok (decValue (pyStrip (rowGetD r (nm ("order"))))) := by
              unfold parseOrderField
              rw [hpv]
            simp only [descEntries, descEntriesOk, hparse, hpv, hrest, if_neg hpid]
          · have hdig' : pyIsDigit (pyStrip (rowGetD r (nm ("order")))) = false := by
              simpa using hdig
            have hpv : parseIntOpt (pyStrip (rowGetD r (nm ("order")))) = Except.ok none := by
              unfold parseIntOpt
              rw [if_neg (by simp [hdig'])]
            have hparse : parseOrderField (pyStrip (rowGetD r (nm ("order")))) = Except.ok 0 := by
              unfold parseOrderField
              rw [hpv]
            simp only [descEntries, descEntriesOk, hparse, hpv, hrest, if_neg hpid]
  · intro pid
    exact ⟨rfl, sortLt_pairwise tupLt tupLt_asymm tupLt_neg_trans _, sortLt_perm tupLt _⟩
  · intro s hs
    have hpv : parseIntOpt s = Except.ok none := by
      unfold parseIntOpt
      rw [if_neg (by simp [hs])]
    unfold parseOrderField
    rw [hpv]

/-- Witness for the amended C10: four rows of project p — two sharing order
2 with texts "b" then "a" in row order, one with the non-numeric order "x",
one with blank text — load as [("z" at order 0), then "a" before "b"]:
ties are in text order, not row order, and "x" became order 0. -/
theorem load_descriptions_correct_witness :
    (descEntries
        [[(nm ("project_id"), nm ("p")), (nm ("order"), nm ("2")), (nm ("text"), nm ("b"))],
         [(nm ("project_id"), nm ("p")), (nm ("order"), nm ("2")), (nm ("text"), nm ("a"))],
         [(nm ("project_id"), nm ("p")), (nm ("order"), nm ("x")), (nm ("text"), nm ("z"))],
         [(nm ("project_id"), nm ("p")), (nm ("order"), nm ("1")), (nm ("text"), nm (" "))]]
      = Except.ok (descEntriesOk
        [[(nm ("project_id"), nm ("p")), (nm ("order"), nm ("2")), (nm ("text"), nm ("b"))],
         [(nm ("project_id"), nm ("p")), (nm ("order"), nm ("2")), (nm ("text"), nm ("a"))],
         [(nm ("project_id"), nm ("p")), (nm ("order"), nm ("x")), (nm ("text"), nm ("z"))],
         [(nm ("project_id"), nm ("p")), (nm ("order"), nm ("1")), (nm ("text"), nm (" "))]]))
      ∧ load_descriptions_for (descEntriesOk
          [[(nm ("project_id"), nm ("p")), (nm ("order"), nm ("2")), (nm ("text"), nm ("b"))],
           [(nm ("project_id"), nm ("p")), (nm ("order"), nm ("2")), (nm ("text"), nm ("a"))],
           [(nm ("project_id"), nm ("p")), (nm ("order"), nm ("x")), (nm ("text"), nm ("z"))],
           [(nm ("project_id"), nm ("p")), (nm ("order"), nm ("1")), (nm ("text"), nm (" "))]])
          (nm ("p"))
        = [nm ("z"), nm ("a"), nm ("b")] :=
  ⟨(load_descriptions_correct
      [[(nm ("project_id"), nm ("p")), (nm ("order"), nm ("2")), (nm ("text"), nm ("b"))],
       [(nm ("project_id"), nm ("p")), (nm ("order"), nm ("2")), (nm ("text"), nm ("a"))],
       [(nm ("project_id"), nm ("p")), (nm ("order"), nm ("x")), (nm ("text"), nm ("z"))],
       [(nm ("project_id"), nm ("p")), (nm ("order"), nm ("1")), (nm ("text"), nm (" "))]]
      (by decide)).1, by decide⟩

/-! ## Wide/long spec equivalence (C5) -/

theorem foldl_fixed (f : β → α → β) (l : List α) (h : ∀ acc : β, ∀ x ∈ l, f acc x = acc) :
    ∀ acc, l.foldl f acc = acc := by
  induction l with
  | nil => intro acc; rfl
  | cons x xs ih =>
      intro acc
      rw [List.foldl_cons, h acc x (by simp)]
      exact ih (fun acc' y hy => h acc' y (by simp [hy])) acc

theorem rowGet_head (pcol p : PStr) (ps : Row) :
    rowGet ((pcol, p) :: ps) pcol = some p := by
  unfold rowGet
  rw [List.find?_cons_of_pos _ (by simp)]
  rfl

theorem rowGet_cons_ne (c v : PStr) (ps : Row) (k : PStr) (h : c ≠ k) :
    rowGet ((c, v) :: ps) k = rowGet ps k := by
  unfold rowGet
  rw [List.find?_cons_of_neg _ (by simp [h])]

theorem rowGet_none (r : Row) (k : PStr) (h : ∀ e ∈ r, e.1 ≠ k) : rowGet r k = none := by
  unfold rowGet
  rw [List.find?_eq_none.mpr]
  · rfl
  · intro e he
    simp [h e he]

theorem wide_cell_eq_long_row (p : PStr) (hps : pyStrip p ≠ []) (kv : PStr × PStr)
    (hne : pyStrip kv.1 ≠ []) (hnp : pyStrip kv.1 ≠ nm ("project_id"))
    (hni : pyStrip kv.1 ≠ nm ("id")) (out : PStr → List (PStr × PStr)) :
    wideCellStep (pyStrip p) out kv
      = longRowStep out [(nm ("project_id"), p), (nm ("key"), kv.1), (nm ("value"), kv.2)] := by
  have hcne : kv.1 ≠ [] := by
    intro hc
    apply hne
    rw [hc]
    rfl
  have hgetp : rowGetD [(nm ("project_id"), p), (nm ("key"), kv.1), (nm ("value"), kv.2)]
      (nm ("project_id")) = p := by
    unfold rowGetD
    rw [rowGet_head]
    rfl
  have hgetk : rowGetD [(nm ("project_id"), p), (nm ("key"), kv.1), (nm ("value"), kv.2)]
      (nm ("key")) = kv.1 := by
    unfold rowGetD
    rw [rowGet_cons_ne _ _ _ _ (by decide), rowGet_head]
    rfl
  have hgetv : rowGetD [(nm ("project_id"), p), (nm ("key"), kv.1), (nm ("value"), kv.2)]
      (nm ("value")) = kv.2 := by
    unfold rowGetD
    rw [rowGet_cons_ne _ _ _ _ (by decide), rowGet_cons_ne _ _ _ _ (by decide), rowGet_head]
    rfl
  unfold wideCellStep longRowStep
  rw [hgetp, hgetk, hgetv]
  rw [if_neg hcne, if_neg hps]
  dsimp only
  rw [if_neg (by rintro (h | h); exact hnp h; exact hni h)]
  by_cases hv : pyStrip kv.2 = []
  · rw [if_pos hv, if_pos (Or.inr hv)]
  · rw [if_neg hv, if_neg (by rintro (h | h); exact hne h; exact hv h)]

theorem wide_cells_eq_long_rows (p : PStr) (hps : pyStrip p ≠ [])
    (ps : List (PStr × PStr))
    (hcols : ∀ kv ∈ ps, pyStrip kv.1 ≠ [] ∧ pyStrip kv.1 ≠ nm ("project_id")
      ∧ pyStrip kv.1 ≠ nm ("id")) :
    ∀ out, List.foldl (wideCellStep (pyStrip p)) out ps
      = List.foldl longRowStep out (ps.map
          (fun kv => [(nm ("project_id"), p), (nm ("key"), kv.1), (nm ("value"), kv.2)])) := by
  induction ps with
  | nil => intro out; rfl
  | cons kv rest ih =>
      intro out
      obtain ⟨hne, hnp, hni⟩ := hcols kv (by simp)
      rw [List.map_cons, List.foldl_cons, List.foldl_cons,
        wide_cell_eq_long_row p hps kv hne hnp hni out]
      exact ih (fun kv' h' => hcols kv' (by simp [h'])) _

theorem wide_row_eq_long_rows (header : List PStr)
    (hk : ∀ k ∈ header, pyStrip k ≠ [] ∧ pyStrip k ≠ nm ("project_id") ∧ pyStrip k ≠ nm ("id"))
    (p : PStr) (vs : List PStr) :
    ∀ out, wideRowStep out ((nm ("project_id"), p) :: header.zip vs)
      = List.foldl longRowStep out ((header.zip vs).map
          (fun kv => [(nm ("project_id"), p), (nm ("key"), kv.1), (nm ("value"), kv.2)])) := by
  have hzipcols : ∀ kv ∈ header.zip vs, pyStrip kv.1 ≠ []
      ∧ pyStrip kv.1 ≠ nm ("project_id") ∧ pyStrip kv.1 ≠ nm ("id") := by
    intro kv hkv
    obtain ⟨a, b⟩ := kv
    exact hk a (List.of_mem_zip hkv).1
  have hid_none : rowGet ((nm ("project_id"), p) :: header.zip vs) (nm ("id")) = none := by
    apply rowGet_none
    intro e he
    rcases List.mem_cons.mp he with he' | hm
    · rw [he']
      exact fun hc => (by decide : ¬ (nm ("project_id") : PStr) = nm ("id")) hc
    · obtain ⟨a, b⟩ := e
      intro hc
      apply (hzipcols (a, b) hm).2.2
      rw [hc]
      decide
  have hpidW : pyStrip (truthyOr (rowGet ((nm ("project_id"), p) :: header.zip vs)
        (nm ("project_id")))
      (truthyOr (rowGet ((nm ("project_id"), p) :: header.zip vs) (nm ("id"))) []))
      = pyStrip p := by
    rw [rowGet_head, hid_none]
    by_cases hp : p = []
    · rw [hp]
      rfl
    · have ht : truthyOr (some p) (truthyOr none []) = p := by
        unfold truthyOr
        dsimp only
        rw [if_neg hp]
      rw [ht]
  intro out
  unfold wideRowStep
  dsimp only
  rw [hpidW]
  by_cases hps : pyStrip p = []
  · rw [if_pos hps]
    refine (foldl_fixed _ _ ?_ out).symm
    intro acc row hrow
    obtain ⟨kv, _, hkv⟩ := List.mem_map.mp hrow
    rw [← hkv]
    unfold longRowStep
    have hget : rowGetD [(nm ("project_id"), p), (nm ("key"), kv.1), (nm ("value"), kv.2)]
        (nm ("project_id")) = p := by
      unfold rowGetD
      rw [rowGet_head]
      rfl
    rw [hget]
    dsimp only
    rw [if_pos hps]
  · rw [if_neg hps]
    rw [List.foldl_cons]
    have hskip : wideCellStep (pyStrip p) out (nm ("project_id"), p) = out := by
      unfold wideCellStep
      rw [if_neg (fun h => (by decide : ¬ (nm ("project_id") : PStr) = []) h)]
      dsimp only
      have hps2 : pyStrip (nm ("project_id")) = nm ("project_id") := by decide
      rw [if_pos (Or.inl hps2)]
    rw [hskip]
    exact wide_cells_eq_long_rows p hps (header.zip vs) hzipcols out

theorem flatten_nil_rows (l : List α) :
    (l.map (fun _ => ([] : List Row))).flatten = [] := by
  induction l with
  | nil => rfl
  | cons x xs ih => simp [ih]

theorem loadSpecs_fold_eq (header : List PStr)
    (hk : ∀ k ∈ header, pyStrip k ≠ [] ∧ pyStrip k ≠ nm ("project_id") ∧ pyStrip k ≠ nm ("id")) :
    ∀ (rows : List (PStr × List PStr)) (out : PStr → List (PStr × PStr)),
      (wideTable header rows).foldl wideRowStep out
        = (longTable header rows).foldl longRowStep out := by
  intro rows
  induction rows with
  | nil => intro out; rfl
  | cons r rrest ih =>
      intro out
      have hw : wideTable header (r :: rrest)
          = ((nm ("project_id"), r.1) :: header.zip r.2) :: wideTable header rrest := rfl
      have hl : longTable header (r :: rrest)
          = ((header.zip r.2).map (fun kv => [(nm ("project_id"), r.1), (nm ("key"), kv.1),
              (nm ("value"), kv.2)])) ++ longTable header rrest := rfl
      rw [hw, hl, List.foldl_cons, List.foldl_append,
        wide_row_eq_long_rows header hk r.1 r.2 out]
      exact ih _

theorem longTable_nil_header (rows : List (PStr × List PStr)) : longTable [] rows = [] := by
  induction rows with
  | nil => rfl
  | cons r rrest ih =>
      show ((([] : List PStr).zip r.2).map (fun kv => [(nm ("project_id"), r.1),
        (nm ("key"), kv.1), (nm ("value"), kv.2)])) ++ longTable [] rrest = []
      rw [ih]
      rfl

theorem loadSpecsWide_nil_header (rows : List (PStr × List PStr)) :
    loadSpecsWide (wideTable [] rows) = specsEmpty := by
  unfold loadSpecsWide wideTable
  apply foldl_fixed
  intro acc row hrow
  obtain ⟨r, _, hr⟩ := List.mem_map.mp hrow
  rw [← hr]
  rw [wide_row_eq_long_rows [] (by intro k hk'; cases hk') r.1 r.2 acc]
  rfl

theorem load_specs_cons (x : Row) (xs : List Row) :
    load_specs (x :: xs)
      = if isLongShape (x :: xs) then loadSpecsLong (x :: xs) else loadSpecsWide (x :: xs) := rfl

/-- C5 counterexample: a ProjectSpecs table whose only row has columns
" key " and " value " (whitespace-padded) is detected as LONG form although
no column is literally named key or value — detection strips the header
names first — and the data then loads as nothing, where the wide reading
would yield two spec values for p1. -/
theorem spec_shape_detection_counterexample :
    isLongShape [[(nm (" key "), nm ("k1")), (nm (" value "), nm ("v1")),
        (nm ("project_id"), nm ("p1"))]] = true
      ∧ nm ("key") ∉ ([(nm (" key "), nm ("k1")), (nm (" value "), nm ("v1")),
          (nm ("project_id"), nm ("p1"))] : Row).map Prod.fst
      ∧ nm ("value") ∉ ([(nm (" key "), nm ("k1")), (nm (" value "), nm ("v1")),
          (nm ("project_id"), nm ("p1"))] : Row).map Prod.fst
      ∧ load_specs [[(nm (" key "), nm ("k1")), (nm (" value "), nm ("v1")),
          (nm ("project_id"), nm ("p1"))]] (nm ("p1")) = []
      ∧ loadSpecsWide [[(nm (" key "), nm ("k1")), (nm (" value "), nm ("v1")),
          (nm ("project_id"), nm ("p1"))]] (nm ("p1"))
        = [(nm ("key"), nm ("k1")), (nm ("value"), nm ("v1"))] := by decide

/-- C5 amended (corrected): shape auto-detection happens once, on the first
row's header, and selects long form exactly when the STRIPPED column names
include both key and value (not the literally-named columns — see
spec_shape_detection_counterexample); under that detection, the same logical
(project_id, key, value) data expressed as a wide table or as the
corresponding long table loads to identical per-project spec lists, provided
the spec-key header names are non-blank after stripping, are not the
identifier columns project_id/id, and do not themselves include both "key"
and "value". -/
theorem wide_long_specs_equivalent (header : List PStr) (rows : List (PStr × List PStr))
    (hlen : ∀ r ∈ rows, header.length ≤ r.2.length)
    (hk : ∀ k ∈ header, pyStrip k ≠ [] ∧ pyStrip k ≠ nm ("project_id") ∧ pyStrip k ≠ nm ("id"))
    (hnl : ¬ (nm ("key") ∈ header.map pyStrip ∧ nm ("value") ∈ header.map pyStrip)) :
    (∀ (rs : List Row) (r0 : Row) (rrest : List Row), rs = r0 :: rrest →
        (isLongShape rs = true ↔ (nm ("key") ∈ r0.map (fun e => pyStrip e.1)
          ∧ nm ("value") ∈ r0.map (fun e => pyStrip e.1))))
      ∧ ∀ pid, load_specs (wideTable header rows) pid
          = load_specs (longTable header rows) pid := by
  constructor
  · intro rs r0 rrest hrs
    subst hrs
    unfold isLongShape
    dsimp only
    rw [Bool.and_eq_true, decide_eq_true_eq, decide_eq_true_eq]
  · intro pid
    cases rows with
    | nil => rfl
    | cons r rrest =>
        have hw : wideTable header (r :: rrest)
            = ((nm ("project_id"), r.1) :: header.zip r.2) :: wideTable header rrest := rfl
        have hmapcols : (((nm ("project_id"), r.1) :: header.zip r.2).map
              (fun e => pyStrip e.1))
            = pyStrip (nm ("project_id")) :: (header.map pyStrip) := by
          rw [List.map_cons]
          congr 1
          rw [show (fun e : PStr × PStr => pyStrip e.1) = (pyStrip ∘ Prod.fst) from rfl,
            ← List.map_map, List.map_fst_zip header r.2 (hlen r (by simp))]
        have hwidefalse : isLongShape (wideTable header (r :: rrest)) = false := by
          rw [hw]
          unfold isLongShape
          dsimp only
          rw [hmapcols]
          apply Bool.eq_false_iff.mpr
          intro hcontra
          rw [Bool.and_eq_true, decide_eq_true_eq, decide_eq_true_eq] at hcontra
          obtain ⟨h1, h2⟩ := hcontra
          rw [List.mem_cons] at h1 h2
          rcases h1 with h1 | h1
          · exact (by decide : ¬ (nm ("key") : PStr) = pyStrip (nm ("project_id"))) h1
          · rcases h2 with h2 | h2
            · exact (by decide : ¬ (nm ("value") : PStr) = pyStrip (nm ("project_id"))) h2
            · exact hnl ⟨h1, h2⟩
        have hwide : load_specs (wideTable header (r :: rrest))
            = loadSpecsWide (wideTable header (r :: rrest)) := by
          rw [hw, load_specs_cons, ← hw, hwidefalse, if_neg Bool.false_ne_true]
        rw [hwide]
        cases hh : header with
        | nil =>
            subst hh
            rw [longTable_nil_header, loadSpecsWide_nil_header]
            rfl
        | cons h0 hs =>
            subst hh
            cases hr2 : r.2 with
            | nil =>
                exfalso
                have hlr := hlen r (by simp)
                rw [hr2] at hlr
                simp at hlr
            | cons v0 vrest =>
                have hlf : longTable (h0 :: hs) (r :: rrest)
                    = [(nm ("project_id"), r.1), (nm ("key"), h0), (nm ("value"), v0)]
                      :: (((hs.zip vrest).map (fun kv => [(nm ("project_id"), r.1),
                          (nm ("key"), kv.1), (nm ("value"), kv.2)]))
                        ++ longTable (h0 :: hs) rrest) := by
                  show (((h0 :: hs).zip r.2).map (fun kv => [(nm ("project_id"), r.1),
                      (nm ("key"), kv.1), (nm ("value"), kv.2)]))
                    ++ longTable (h0 :: hs) rrest = _
                  rw [hr2]
                  rfl
                have hlongtrue : isLongShape (longTable (h0 :: hs) (r :: rrest)) = true := by
                  rw [hlf]
                  unfold isLongShape
                  dsimp only
                  simp only [List.map_cons, List.map_nil]
                  rfl
                have hlong : load_specs (longTable (h0 :: hs) (r :: rrest))
                    = loadSpecsLong (longTable (h0 :: hs) (r :: rrest)) := by
                  rw [hlf, load_specs_cons, ← hlf, hlongtrue, if_pos rfl]
                rw [hlong]
                have hfold := loadSpecs_fold_eq (h0 :: hs) hk (r :: rrest) specsEmpty
                unfold loadSpecsWide loadSpecsLong
                exact congrFun hfold pid

/-- Witness for the amended C5: header [area, height] with two project rows
loads identically through the wide and the long readings. -/
theorem wide_long_specs_equivalent_witness :
    ((∀ (rs : List Row) (r0 : Row) (rrest : List Row), rs = r0 :: rrest →
        (isLongShape rs = true ↔ (nm ("key") ∈ r0.map (fun e => pyStrip e.1)
          ∧ nm ("value") ∈ r0.map (fun e => pyStrip e.1))))
      ∧ ∀ pid, load_specs (wideTable [nm ("area"), nm ("height")]
            [(nm ("p1"), [nm ("100"), nm ("")]), (nm ("p2"), [nm (" 5 "), nm ("x")])]) pid
          = load_specs (longTable [nm ("area"), nm ("height")]
            [(nm ("p1"), [nm ("100"), nm ("")]), (nm ("p2"), [nm (" 5 "), nm ("x")])]) pid)
      ∧ load_specs (wideTable [nm ("area"), nm ("height")]
          [(nm ("p1"), [nm ("100"), nm ("")]), (nm ("p2"), [nm (" 5 "), nm ("x")])]) (nm ("p2"))
        = [(nm ("area"), nm ("5")), (nm ("height"), nm ("x"))] :=
  ⟨wide_long_specs_equivalent [nm ("area"), nm ("height")]
      [(nm ("p1"), [nm ("100"), nm ("")]), (nm ("p2"), [nm (" 5 "), nm ("x")])]
      (by decide) (by decide) (by decide),
    by decide⟩
